import Mathlib

/-!
Shallow embedding of the `og` task tool core (src/task_model.rs,
src/markdown_parser.rs, src/markdown_formatter.rs, src/apply_logic.rs)
and proofs about the claims of the natural-language specification.

Strings from the Rust source are modelled as `List Char` internally
(`&str` slices), with `String` used for the stored `Task` fields.
`chrono::NaiveDate` is modelled by the `Date` structure below together
with `date_from_ymd_opt` (the proleptic Gregorian validity check of
`NaiveDate::from_ymd_opt`).  The ambient clock (`chrono::Local::now()`)
is threaded through as explicit parameters: `currentYear` for the parser
(two-part date tokens) and `today` for the merge engine.
-/

namespace Og

/-- Models `chrono::NaiveDate`: a proleptic Gregorian calendar date. -/
structure Date where
  year : Int
  month : Nat
  day : Nat
deriving DecidableEq, Repr

/-- Gregorian leap-year rule, as used by chrono. -/
def is_leap_year (y : Int) : Bool :=
  y % 4 = 0 && (y % 100 ≠ 0 || y % 400 = 0)

/-- Days of a month in the proleptic Gregorian calendar. -/
def days_in_month (y : Int) (m : Nat) : Nat :=
  if m = 2 then (if is_leap_year y then 29 else 28)
  else if m = 4 ∨ m = 6 ∨ m = 9 ∨ m = 11 then 30
  else 31

/-- Models `NaiveDate::from_ymd_opt`: `some` exactly on valid dates. -/
def date_from_ymd_opt (y : Int) (m d : Nat) : Option Date :=
  if 1 ≤ m ∧ m ≤ 12 ∧ 1 ≤ d ∧ d ≤ days_in_month y m then
    some ⟨y, m, d⟩
  else none

/-- Stand-in for the opaque `extra` payload
(`HashMap<String, serde_json::Value>` in src/task_model.rs).  The core
never reads or writes its contents, it is only carried around whole. -/
def ExtraData := List (String × String)
deriving DecidableEq

/-- Stand-in for `RepeatInfo` (src/task_model.rs), an empty struct. -/
def RepeatInfo := Unit
deriving DecidableEq

/-- The `Task` record of src/task_model.rs.  Recursive through the
`subtasks` field (`Option<Vec<Task>>`), hence an inductive with a single
constructor; field accessors are defined below.  Field order follows the
Rust struct. -/
inductive Task where
  | mk
    (name : String)
    (status : String)
    (priority : String)
    (id : Int)
    (created : Date)
    (display_order : Int)
    (due : Option Date)
    (updated : Option Date)
    (completed : Option Date)
    (project : Option String)
    (contexts : Option (List String))
    (notes : Option String)
    (tags : Option (List String))
    (subtasks : Option (List Task))
    (extra : Option ExtraData)
    (rep : Option RepeatInfo)
    : Task

namespace Task

def name : Task → String
  | .mk v _ _ _ _ _ _ _ _ _ _ _ _ _ _ _ => v

def status : Task → String
  | .mk _ v _ _ _ _ _ _ _ _ _ _ _ _ _ _ => v

def priority : Task → String
  | .mk _ _ v _ _ _ _ _ _ _ _ _ _ _ _ _ => v

def id : Task → Int
  | .mk _ _ _ v _ _ _ _ _ _ _ _ _ _ _ _ => v

def created : Task → Date
  | .mk _ _ _ _ v _ _ _ _ _ _ _ _ _ _ _ => v

def display_order : Task → Int
  | .mk _ _ _ _ _ v _ _ _ _ _ _ _ _ _ _ => v

def due : Task → Option Date
  | .mk _ _ _ _ _ _ v _ _ _ _ _ _ _ _ _ => v

def updated : Task → Option Date
  | .mk _ _ _ _ _ _ _ v _ _ _ _ _ _ _ _ => v

def completed : Task → Option Date
  | .mk _ _ _ _ _ _ _ _ v _ _ _ _ _ _ _ => v

def project : Task → Option String
  | .mk _ _ _ _ _ _ _ _ _ v _ _ _ _ _ _ => v

def contexts : Task → Option (List String)
  | .mk _ _ _ _ _ _ _ _ _ _ v _ _ _ _ _ => v

def notes : Task → Option String
  | .mk _ _ _ _ _ _ _ _ _ _ _ v _ _ _ _ => v

def tags : Task → Option (List String)
  | .mk _ _ _ _ _ _ _ _ _ _ _ _ v _ _ _ => v

def subtasks : Task → Option (List Task)
  | .mk _ _ _ _ _ _ _ _ _ _ _ _ _ v _ _ => v

def extra : Task → Option ExtraData
  | .mk _ _ _ _ _ _ _ _ _ _ _ _ _ _ v _ => v

def rep : Task → Option RepeatInfo
  | .mk _ _ _ _ _ _ _ _ _ _ _ _ _ _ _ v => v

/-- `task.id = v` (field assignment used by the id allocator). -/
def setId : Task → Int → Task
  | .mk a b c _ e f g h i j k l m n o p, v => .mk a b c v e f g h i j k l m n o p

/-- `task.display_order = v` (field assignment). -/
def setDisplayOrder : Task → Int → Task
  | .mk a b c d e _ g h i j k l m n o p, v => .mk a b c d e v g h i j k l m n o p

end Task

/-! ### Character and string helpers (Rust `str` primitives on `List Char`) -/

/-- Whitespace as recognised by Rust `char::is_whitespace` and the regex
class `\s`, restricted to the ASCII range (inputs here are ASCII). -/
def is_ws (c : Char) : Bool :=
  c = ' ' || c = '\t' || c = '\n' || c = '\x0b' || c = '\x0c' || c = '\r'

def is_digit_char (c : Char) : Bool := '0' ≤ c && c ≤ '9'

def is_upper_az (c : Char) : Bool := 'A' ≤ c && c ≤ 'Z'

/-- Rust `str::trim_start`. -/
def trim_start (s : List Char) : List Char := s.dropWhile is_ws

/-- Rust `str::trim_end`. -/
def trim_end (s : List Char) : List Char := (s.reverse.dropWhile is_ws).reverse

/-- Rust `str::trim`. -/
def trim_both (s : List Char) : List Char := trim_end (trim_start s)

/-- Rust `str::trim_start_matches("- ")`: repeatedly strip the prefix. -/
def trim_start_dash_space (s : List Char) : List Char :=
  match s with
  | '-' :: ' ' :: r => trim_start_dash_space r
  | _ => s

/-- Numeric value of a digit string. -/
def digits_to_nat (ds : List Char) : Nat :=
  ds.foldl (fun a c => a * 10 + (c.toNat - '0'.toNat)) 0

/-- Rust `str::parse::<i64>()` on a non-empty all-digit capture: fails
(`Err`) exactly on overflow past `i64::MAX`. -/
def parse_i64 (ds : List Char) : Option Int :=
  let n := digits_to_nat ds
  if n ≤ 9223372036854775807 then some (Int.ofNat n) else none

/-- Rust `str::parse::<u32>()` as reached from `parse_date_or_empty_attr`:
the split pieces parse iff they are non-empty all-digit strings within
`u32` range (a leading `+` cannot occur in the regex-captured tokens). -/
def parse_u32 (ds : List Char) : Option Nat :=
  if ds ≠ [] ∧ ds.all is_digit_char ∧ digits_to_nat ds < 4294967296 then
    some (digits_to_nat ds)
  else none

/-! ### The base line shape regex (src/markdown_parser.rs lines 25-30, 255-257)

`^\s*\[(?P<status_char>[ xpw?>c-])\]\s*(?:\((?P<priority_val>[A-Z]{1,}|N)\)\s*)?`
`(?:(?:\[\[(?P<task_name>.+?)\]\])|(?P<task_name_plain>.+))\s*(?P<attributes_str>.*)`

embedded as a deterministic matcher with the leftmost-first (backtracking)
semantics of the `regex` crate.  The analysis of the backtracking is spelled
out at each function. -/

/-- The status marker character class `[ xpw?>c-]`. -/
def status_marker_chars : List Char := [' ', 'x', 'p', 'w', '?', '>', 'c', '-']

/-- `\((?P<priority_val>[A-Z]{1,}|N)\)`: matches iff the input starts with
`(`, a non-empty maximal run of `A-Z`, then directly `)`.  (A shorter run
would face an `A-Z` character where `)` is required, and the `N`
alternative is subsumed, so greedy-with-backtracking reduces to this.) -/
def match_priority (s : List Char) : Option (List Char × List Char) :=
  match s with
  | '(' :: r =>
    let run := r.takeWhile is_upper_az
    if run.isEmpty then none
    else match r.drop run.length with
      | ')' :: rest => some (run, rest)
      | _ => none
  | _ => none

/-- The lazy part `(?P<task_name>.+?)\]\]` after an opening `[[`: the
shortest non-empty chunk followed by `]]`; returns (name, rest after the
closing brackets). -/
def lazy_wiki_name : List Char → Option (List Char × List Char)
  | c :: ']' :: ']' :: rest => some ([c], rest)
  | c :: rest =>
    match lazy_wiki_name rest with
    | some (n, r) => some (c :: n, r)
    | none => none
  | [] => none

/-- `\s*NAME\s*(?P<attributes_str>.*)` where `NAME` is the wiki-link or
plain-name alternation.  Returns (name, attributes_str).  Backtracking
analysis: the greedy `\s*` first consumes all whitespace; if nothing is
left, it gives back exactly one character and the plain `.+` captures that
single whitespace character.  After a wiki-link name the attribute string
is whatever follows the closing `]]` and the greedy `\s*`. -/
def name_and_attrs (r : List Char) : Option (List Char × List Char) :=
  let r' := r.dropWhile is_ws
  match r' with
  | [] =>
    match r.getLast? with
    | some c => some ([c], [])
    | none => none
  | '[' :: '[' :: rest =>
    match lazy_wiki_name rest with
    | some (nm, after) => some (nm, after.dropWhile is_ws)
    | none => some (r', [])
  | _ => some (r', [])

/-- Captures of the base line regex. -/
structure BaseCaps where
  status_char : Char
  priority_val : Option (List Char)
  task_name : List Char
  attributes_str : List Char

/-- The whole base regex.  If the optional priority group matches but the
name then fails (nothing left), the engine backtracks and retries without
the priority group; this is the only cross-group backtracking possible. -/
def base_match (s : List Char) : Option BaseCaps :=
  match s.dropWhile is_ws with
  | '[' :: m :: ']' :: rest =>
    if status_marker_chars.contains m then
      match match_priority (rest.dropWhile is_ws) with
      | some (p, r3) =>
        match name_and_attrs r3 with
        | some (nm, att) => some ⟨m, some p, nm, att⟩
        | none =>
          match name_and_attrs rest with
          | some (nm, att) => some ⟨m, none, nm, att⟩
          | none => none
      | none =>
        match name_and_attrs rest with
        | some (nm, att) => some ⟨m, none, nm, att⟩
        | none => none
    else none
  | _ => none

/-! ### Attribute sub-grammars (src/markdown_parser.rs lines 259-274)

Each attribute regex is scanned over the attribute tail independently.
`captures` = leftmost match; `captures_iter` = all non-overlapping
matches, left to right. -/

/-- Generic leftmost scan: at each position, if `key` is a literal prefix
try `alt` on what follows; on failure advance one character (regex
`captures` semantics). -/
def attr_scan (key : List Char) (alt : List Char → Option (List Char)) :
    List Char → Option (List Char)
  | [] => none
  | c :: r =>
    if key.isPrefixOf (c :: r) then
      match alt ((c :: r).drop key.length) with
      | some v => some v
      | none => attr_scan key alt r
    else attr_scan key alt r

/-- Value alternative `\d+` (for `id:`): a non-empty greedy digit run. -/
def digits_alt (r : List Char) : Option (List Char) :=
  let ds := r.takeWhile is_digit_char
  if ds.isEmpty then none else some ds

/-- `id:(?P<id_val>\d+)`: leftmost capture. -/
def id_capture (attrs : List Char) : Option (List Char) :=
  attr_scan ['i', 'd', ':'] digits_alt attrs

/-- `\d{1,2}` greedy at the end of a date alternative (no lookahead
constraint): up to two digits. -/
def day12 : List Char → Option (List Char × List Char)
  | a :: b :: rest =>
    if is_digit_char a then
      if is_digit_char b then some ([a, b], rest) else some ([a], b :: rest)
    else none
  | [a] => if is_digit_char a then some ([a], []) else none
  | [] => none

/-- `\d{1,2}` directly followed by a separator accepted by `sep_ok`,
with the greedy-then-backtrack semantics of `{1,2}`. -/
def month_sep (sep_ok : Char → Bool) : List Char → Option (List Char × Char × List Char)
  | a :: b :: c :: rest =>
    if is_digit_char a then
      if is_digit_char b && sep_ok c then some ([a, b], c, rest)
      else if sep_ok b then some ([a], b, c :: rest)
      else none
    else none
  | [a, b] => if is_digit_char a && sep_ok b then some ([a], b, []) else none
  | _ => none

def is_dash_or_slash (c : Char) : Bool := c = '-' || c = '/'

/-- Date value alternative `\d(4) sep \d(1,2) sep \d(1,2)` with sep the
class dash-or-slash (braces of the source regex written as parentheses
here): exactly four digits (a counted group has no shorter or longer
option), separator, then the two backtracking-aware short components. -/
def date_alt_full (r : List Char) : Option (List Char) :=
  match r with
  | d1 :: d2 :: d3 :: d4 :: s1 :: r2 =>
    if is_digit_char d1 && is_digit_char d2 && is_digit_char d3 && is_digit_char d4
        && is_dash_or_slash s1 then
      match month_sep is_dash_or_slash r2 with
      | some (m, s2, r3) =>
        match day12 r3 with
        | some (d, _) => some ([d1, d2, d3, d4, s1] ++ m ++ s2 :: d)
        | none => none
      | none => none
    else none
  | _ => none

/-- Date value alternative `\d{1,2}/\d{1,2}`. -/
def date_alt_short (r : List Char) : Option (List Char) :=
  match month_sep (fun c => c = '/') r with
  | some (m, _, r2) =>
    match day12 r2 with
    | some (d, _) => some (m ++ '/' :: d)
    | none => none
  | none => none

/-- Date value alternative `\"\"` (the explicitly-cleared form). -/
def date_alt_empty (r : List Char) : Option (List Char) :=
  match r with
  | '"' :: '"' :: _ => some ['"', '"']
  | _ => none

/-- The full date value alternation, in the regex's order.  `created` has
no empty-quote alternative (`allow_empty = false`). -/
def date_value_alt (allow_empty : Bool) (r : List Char) : Option (List Char) :=
  match date_alt_full r with
  | some v => some v
  | none =>
    match date_alt_short r with
    | some v => some v
    | none => if allow_empty then date_alt_empty r else none

/-- `created:(...)` capture. -/
def created_capture (attrs : List Char) : Option (List Char) :=
  attr_scan (String.toList "created:") (date_value_alt false) attrs

/-- `due:(...)` capture. -/
def due_capture (attrs : List Char) : Option (List Char) :=
  attr_scan (String.toList "due:") (date_value_alt true) attrs

/-- `updated:(...)` capture. -/
def updated_capture (attrs : List Char) : Option (List Char) :=
  attr_scan (String.toList "updated:") (date_value_alt true) attrs

/-- `completed:(...)` capture. -/
def completed_capture (attrs : List Char) : Option (List Char) :=
  attr_scan (String.toList "completed:") (date_value_alt true) attrs

/-- Value alternative `\S+`: a non-empty greedy non-whitespace run. -/
def nonws_alt (r : List Char) : Option (List Char) :=
  let run := r.takeWhile (fun c => !is_ws c)
  if run.isEmpty then none else some run

/-- `\+(?P<project_val>\S+)`: leftmost capture. -/
def project_capture (attrs : List Char) : Option (List Char) :=
  attr_scan ['+'] nonws_alt attrs

/-- `captures_iter` for `@(?P<context_val>\S+)` / `#(?P<tag_val>\S+)`:
all non-overlapping matches, continuing after each match. -/
def sigil_captures_go (sig : Char) : Nat → List Char → List (List Char)
  | 0, _ => []
  | _ + 1, [] => []
  | fuel + 1, c :: r =>
    if c = sig then
      let run := r.takeWhile (fun ch => !is_ws ch)
      if run.isEmpty then sigil_captures_go sig fuel r
      else run :: sigil_captures_go sig fuel (r.drop run.length)
    else sigil_captures_go sig fuel r

def sigil_captures (sig : Char) (s : List Char) : List (List Char) :=
  sigil_captures_go sig s.length s

/-- The quoted-note body `(?:[^\"]|\"\")*` followed by the closing quote,
with full backtracking: a quote pair is consumed greedily, but if no lone
closing quote is ever found the engine reinterprets the last quote pair's
first quote as the closing quote.  Returns (captured body, rest). -/
def note_body : List Char → Option (List Char × List Char)
  | '"' :: '"' :: rest =>
    (match note_body rest with
     | some (cap, r) => some ('"' :: '"' :: cap, r)
     | none => some ([], '"' :: rest))
  | '"' :: rest => some ([], rest)
  | c :: rest =>
    match note_body rest with
    | some (cap, r) => some (c :: cap, r)
    | none => none
  | [] => none

/-- `note:\"(?P<note_val>(?:[^\"]|\"\")*)\"`: leftmost capture. -/
def note_capture (attrs : List Char) : Option (List Char) :=
  attr_scan (String.toList "note:")
    (fun r =>
      match r with
      | '"' :: r2 => (note_body r2).map (fun p => p.1)
      | _ => none)
    attrs

/-- Rust `str::replace("\"\"", "\"")`: left-to-right, non-overlapping. -/
def unescape_quotes : List Char → List Char
  | '"' :: '"' :: r => '"' :: unescape_quotes r
  | c :: r => c :: unescape_quotes r
  | [] => []

/-! ### Status mapping and the line parser (src/markdown_parser.rs) -/

/-- `map_status_char_to_string` (lines 277-292).  Note the source maps the
space marker to the word "open" (its comment records that the written
specification says NONE instead). -/
def map_status_char_to_string (status_char : Char) : String :=
  match asciiLower status_char with
  | ' ' => "open"
  | 'p' => "pending"
  | '>' => "doing"
  | 'w' => "waiting"
  | 'x' => "done"
  | 'c' => "cancelled"
  | '?' => "unknown"
  | _ => "unknown"
where
  /-- Rust `char::to_ascii_lowercase`. -/
  asciiLower (c : Char) : Char :=
    if 'A' ≤ c ∧ c ≤ 'Z' then Char.ofNat (c.toNat + 32) else c

/-- Rust `format!("{:?}", s)` on a `&str` (`format_for_debug`), for the
ASCII inputs that occur here: quotes, backslashes and control characters
are escaped, everything else is kept. -/
def rust_debug_str (s : List Char) : List Char :=
  '"' :: (s.flatMap escapeChar) ++ ['"']
where
  escapeChar (c : Char) : List Char :=
    if c = '"' then ['\\', '"']
    else if c = '\\' then ['\\', '\\']
    else if c = '\n' then ['\\', 'n']
    else if c = '\r' then ['\\', 'r']
    else if c = '\t' then ['\\', 't']
    else if c = '\x00' then ['\\', 'u', '{', '0', '}']
    else [c]

/-- chrono `NaiveDate::parse_from_str` with format `%Y sep %m sep %d` on a
regex-captured token: digit runs for each component (month/day at most two
digits), the whole string consumed, then `from_ymd_opt` validation. -/
def parse_ymd_with (sep : Char) (s : List Char) : Option Date :=
  let y := s.takeWhile is_digit_char
  if y.isEmpty then none else
  match s.drop y.length with
  | c :: r1 =>
    if c = sep then
      let m := r1.takeWhile is_digit_char
      if m.isEmpty ∨ 2 < m.length then none else
      match r1.drop m.length with
      | c2 :: r2 =>
        if c2 = sep then
          let d := r2.takeWhile is_digit_char
          if d.isEmpty ∨ 2 < d.length ∨ ¬ (r2.drop d.length).isEmpty then none
          else date_from_ymd_opt (Int.ofNat (digits_to_nat y)) (digits_to_nat m) (digits_to_nat d)
        else none
      | [] => none
    else none
  | [] => none

/-- `parse_date_or_empty_attr` (lines 314-344) applied to a captured date
value; `currentYear` models `Local::now().year()`.  The chrono
`parse_from_str` calls are modelled by `parse_ymd_with` on the token
shapes the capture regex can produce (digit runs and separators, with
chrono's tolerance for unpadded components). -/
def parse_date_or_empty_attr (s : List Char) (currentYear : Int) : Option Date :=
  if s = ['"', '"'] then none
  else match parse_ymd_with '-' s with
  | some d => some d
  | none =>
    match parse_ymd_with '/' s with
    | some d => some d
    | none =>
      if (s.filter (fun c => c = '/')).length = 1 then
        let p0 := s.takeWhile (fun c => c ≠ '/')
        let p1 := (s.dropWhile (fun c => c ≠ '/')).drop 1
        match parse_u32 p0, parse_u32 p1 with
        | some m, some d => date_from_ymd_opt currentYear m d
        | _, _ => none
      else none

/-- The base-shape error of the line parser (line 367):
`format!("Line '{}' does not match base task format", format_for_debug(trimmed_line))`. -/
def line_error_msg (trimmed_line : List Char) : String :=
  String.mk ((String.toList "Line ") ++ '\'' :: rust_debug_str trimmed_line ++
    '\'' :: (String.toList " does not match base task format"))

/-- `parse_markdown_line_to_task` (lines 346-468).  `currentYear` models
the ambient `Local::now().year()` used for two-part dates.  The only
error is the base-shape mismatch; the regex compilations of the source
cannot fail (fixed patterns). -/
def parse_markdown_line_to_task (line : List Char) (default_id : Int)
    (default_created_date : Date) (default_display_order : Int)
    (currentYear : Int) : Except String Task :=
  let trimmed_line := trim_both (trim_start_dash_space line)
  match base_match trimmed_line with
  | none => .error (line_error_msg trimmed_line)
  | some caps =>
    let status := map_status_char_to_string caps.status_char
    let priority : String := match caps.priority_val with
      | some p => ⟨p⟩
      | none => "N"
    let name : String := ⟨caps.task_name⟩
    let attributes_str := trim_both caps.attributes_str
    let task_id : Int := match id_capture attributes_str with
      | some ds => (parse_i64 ds).getD default_id
      | none => default_id
    let task_created : Date := match created_capture attributes_str with
      | some v => (parse_date_or_empty_attr v currentYear).getD default_created_date
      | none => default_created_date
    let task_due := (due_capture attributes_str).bind
      (fun v => parse_date_or_empty_attr v currentYear)
    let task_updated := (updated_capture attributes_str).bind
      (fun v => parse_date_or_empty_attr v currentYear)
    let task_completed := (completed_capture attributes_str).bind
      (fun v => parse_date_or_empty_attr v currentYear)
    let task_project : Option String :=
      (project_capture attributes_str).map (fun v => ⟨v⟩)
    let task_contexts : List String :=
      (sigil_captures '@' attributes_str).map (fun v => ⟨v⟩)
    let task_tags : List String :=
      (sigil_captures '#' attributes_str).map (fun v => ⟨v⟩)
    let task_notes : Option String :=
      (note_capture attributes_str).map (fun v => ⟨unescape_quotes v⟩)
    .ok (.mk name status priority task_id task_created default_display_order
      task_due task_updated task_completed task_project
      (if task_contexts.isEmpty then none else some task_contexts)
      task_notes
      (if task_tags.isEmpty then none else some task_tags)
      none none none)

/-! ### Document-level parsing (src/markdown_parser.rs lines 21-251)

The source function makes a first (dead) tree-building loop whose results
are discarded, then a pre-scan collecting every explicitly written
identifier, then the real parsing pass with identifier allocation, then
the pointer-stack tree assembly.  The dead loop parses exactly the same
lines with the same line parser, so the observable behaviour (including
which error is returned first) is the pre-scan + flat pass + assembly
modelled here. -/

/-- `calculate_indent_level` (lines 7-9): four leading spaces per level. -/
def calculate_indent_level (line : List Char) : Nat :=
  (line.takeWhile (fun c => c = ' ')).length / 4

/-- `strip_indent_and_marker` (lines 12-15). -/
def strip_indent_and_marker (line : List Char) : List Char :=
  (line.dropWhile (fun c => c = ' ' || c = '-' || c = '*')).dropWhile is_ws

/-- Rust `str::lines()`: split at `\n`, drop a final empty piece, strip a
trailing `\r` from each line. -/
def lines_of (s : List Char) : List (List Char) :=
  let ps := split_nl s
  (if ps.getLast? = some [] then ps.dropLast else ps).map strip_cr
where
  split_nl : List Char → List (List Char)
    | [] => [[]]
    | '\n' :: r => [] :: split_nl r
    | c :: r =>
      match split_nl r with
      | l :: ls => (c :: l) :: ls
      | [] => [[c]]
  strip_cr (l : List Char) : List Char :=
    if l.getLast? = some '\r' then l.dropLast else l

/-- The line filter of both document passes (lines 40-43, 159-162,
176-179): skip blank lines and lines not beginning (after leading
whitespace) with the task list marker. -/
def is_task_line (line : List Char) : Bool :=
  !(trim_both line).isEmpty && (String.toList "- [").isPrefixOf (trim_start line)

/-- The task lines of a document, in order. -/
def task_lines (doc : List Char) : List (List Char) :=
  (lines_of doc).filter is_task_line

/-- Pre-scan of one task line (lines 163-173): extract the attribute tail
with the base regex and capture + parse an `id:` attribute from it. -/
def pre_scan_id (line : List Char) : Option Int :=
  match base_match (strip_indent_and_marker line) with
  | some caps => (id_capture (trim_both caps.attributes_str)).bind parse_i64
  | none => none

/-- The pre-scan pass (lines 158-174): the set of all explicitly authored
identifiers of the document (`existing_ids` after the first collection). -/
def pre_scan_ids (doc : List Char) : Finset ℤ :=
  (task_lines doc).foldl
    (fun s l => match pre_scan_id l with
      | some k => insert k s
      | none => s) ∅

/-- The `while existing_ids.contains(&next_auto_id)` loop (lines 198-200):
first candidate from `n` upward not in the set.  The fuel `card + 1`
always suffices (`alloc_from_spec` below). -/
def alloc_aux : Nat → Finset ℤ → Int → Int
  | 0, _, n => n
  | fuel + 1, ex, n => if n ∈ ex then alloc_aux fuel ex (n + 1) else n

def alloc_from (ex : Finset ℤ) (n : Int) : Int := alloc_aux (ex.card + 1) ex n

/-- The real parsing pass (lines 176-206): parse each task line with
default id 0, keep a non-zero parsed id (registering it), otherwise
auto-allocate; pair each task with its indentation level. -/
def parse_flat_items_go (ls : List (List Char)) (default_created : Date)
    (currentYear : Int) : Int → Finset ℤ → Int →
    Except String (List (Task × Nat)) :=
  fun next_auto existing disp =>
  match ls with
  | [] => .ok []
  | l :: rest =>
    let lvl := calculate_indent_level l
    match parse_markdown_line_to_task (strip_indent_and_marker l) 0
        default_created disp currentYear with
    | .error e => .error e
    | .ok task =>
      if task.id ≠ 0 then
        (parse_flat_items_go rest default_created currentYear next_auto
          (insert task.id existing) (disp + 1)).map
          (fun items => (task, lvl) :: items)
      else
        let a := alloc_from existing next_auto
        (parse_flat_items_go rest default_created currentYear (a + 1)
          (insert a existing) (disp + 1)).map
          (fun items => (task.setId a, lvl) :: items)

/-- Step 1 of `parse_markdown_document_to_tasks`: the flat list of parsed
tasks with indentation levels, ids resolved. -/
def parse_flat_items (doc : List Char) (default_created : Date)
    (currentYear : Int) : Except String (List (Task × Nat)) :=
  parse_flat_items_go (task_lines doc) default_created currentYear 1
    (pre_scan_ids doc) 1

/-- `parent_task.subtasks.get_or_insert_with(Vec::new).push(child)`
(lines 238-241). -/
def attach_child (parent child : Task) : Task :=
  match parent with
  | .mk a b c d e f g h i j k l m subs o p =>
    .mk a b c d e f g h i j k l m (some ((subs.getD []) ++ [child])) o p

/-- Pop the parent stack while the top entry's level is ≥ the incoming
level (lines 219-225); a popped task's subtree is complete, so it is
attached to the next entry down, or becomes a finished root.  This is the
purely functional reading of the source's raw-pointer stack, which
instead attaches each task to its parent immediately and mutates it in
place; both attach the same children in the same order. -/
def pop_to_level_go (lvl : Nat) : Nat → List (Task × Nat) → List Task →
    List (Task × Nat) × List Task
  | 0, stack, roots => (stack, roots)
  | _ + 1, [], roots => ([], roots)
  | fuel + 1, (c, cl) :: rest, roots =>
    if lvl ≤ cl then
      match rest with
      | (p, pl) :: rest2 => pop_to_level_go lvl fuel ((attach_child p c, pl) :: rest2) roots
      | [] => pop_to_level_go lvl fuel [] (roots ++ [c])
    else ((c, cl) :: rest, roots)

def pop_to_level (lvl : Nat) (stack : List (Task × Nat)) (roots : List Task) :
    List (Task × Nat) × List Task :=
  pop_to_level_go lvl stack.length stack roots

/-- End of input: pop the whole stack (every remaining subtree closes). -/
def collapse_stack_go : Nat → List (Task × Nat) → List Task → List Task
  | 0, _, roots => roots
  | _ + 1, [], roots => roots
  | fuel + 1, (c, _) :: rest, roots =>
    match rest with
    | (p, pl) :: rest2 => collapse_stack_go fuel ((attach_child p c, pl) :: rest2) roots
    | [] => roots ++ [c]

def collapse_stack (stack : List (Task × Nat)) (roots : List Task) : List Task :=
  collapse_stack_go stack.length stack roots

/-- Step 2 of `parse_markdown_document_to_tasks` (lines 208-250): assemble
the flat items into the forest of root tasks. -/
def build_forest_go : List (Task × Nat) → List (Task × Nat) → List Task → List Task
  | [], stack, roots => collapse_stack stack roots
  | (t, lvl) :: items, stack, roots =>
    let sr := pop_to_level lvl stack roots
    build_forest_go items ((t, lvl) :: sr.1) sr.2

def build_forest (items : List (Task × Nat)) : List Task :=
  build_forest_go items [] []

/-- `parse_markdown_document_to_tasks` (lines 21-251). -/
def parse_markdown_document_to_tasks (doc : String) (default_created : Date)
    (currentYear : Int) : Except String (List Task) :=
  (parse_flat_items doc.toList default_created currentYear).map build_forest

/-! ### The formatter (src/markdown_formatter.rs) -/

/-- `map_status_string_to_char` (lines 4-18). -/
def map_status_string_to_char (status_string : String) : Char :=
  let lowered : String := ⟨status_string.toList.map lowerChar⟩
  if lowered = "none" ∨ lowered = "open" then ' '
  else if lowered = "pending" then 'p'
  else if lowered = "doing" then '>'
  else if lowered = "waiting" then 'w'
  else if lowered = "done" then 'x'
  else if lowered = "cancelled" then 'c'
  else '?'
where
  /-- Rust `str::to_ascii_lowercase`, per character. -/
  lowerChar (c : Char) : Char :=
    if 'A' ≤ c ∧ c ≤ 'Z' then Char.ofNat (c.toNat + 32) else c

/-- Left-pad a digit string with zeros. -/
def zero_pad (w : Nat) (ds : List Char) : List Char :=
  List.replicate (w - ds.length) '0' ++ ds

/-- chrono `format("%Y-%m-%d")`: zero-padded year (4), month (2), day (2);
a negative year keeps its sign. -/
def format_date (d : Date) : List Char :=
  (if d.year < 0 then ['-'] else []) ++
    zero_pad 4 (Nat.toDigits 10 d.year.natAbs) ++
    '-' :: zero_pad 2 (Nat.toDigits 10 d.month) ++
    '-' :: zero_pad 2 (Nat.toDigits 10 d.day)

/-- Rust `Vec::join(sep)` on char lists. -/
def join_with (sep : List Char) : List (List Char) → List Char
  | [] => []
  | [x] => x
  | x :: xs => x ++ sep ++ join_with sep xs

/-- Rust `i64` `Display`. -/
def int_to_dec (i : Int) : List Char :=
  (if i < 0 then ['-'] else []) ++ Nat.toDigits 10 i.natAbs

/-- `format_task_core_content` (lines 21-88): the attribute tokens in
their fixed output order (id, due, project, contexts, tags, created,
updated, completed, note), joined with single spaces, then the assembled
line body `[status] (priority) [[name]] attrs` with the source's two
`trim_end` calls. -/
def format_task_core_content (t : Task) : List Char :=
  let status_char := map_status_string_to_char t.status
  let id_attr := String.toList "id:" ++ int_to_dec t.id
  let due_attr := match t.due with
    | some d => String.toList "due:" ++ format_date d
    | none => String.toList "due:\"\""
  let project_attrs : List (List Char) := match t.project with
    | some p => [['+'] ++ p.toList]
    | none => []
  let context_attrs : List (List Char) := match t.contexts with
    | some cs =>
      if cs.isEmpty then []
      else [join_with [' '] (cs.map (fun c => '@' :: c.toList))]
    | none => []
  let tag_attrs : List (List Char) := match t.tags with
    | some ts =>
      if ts.isEmpty then []
      else [join_with [' '] (ts.map (fun tg => '#' :: tg.toList))]
    | none => []
  let created_attr := String.toList "created:" ++ format_date t.created
  let updated_attr := match t.updated with
    | some d => String.toList "updated:" ++ format_date d
    | none => String.toList "updated:\"\""
  let completed_attr := match t.completed with
    | some d => String.toList "completed:" ++ format_date d
    | none => String.toList "completed:\"\""
  let note_attrs : List (List Char) := match t.notes with
    | some n => [String.toList "note:\"" ++ escape_quotes n.toList ++ ['"']]
    | none => []
  let attributes : List (List Char) :=
    [id_attr, due_attr] ++ project_attrs ++ context_attrs ++ tag_attrs ++
    [created_attr, updated_attr, completed_attr] ++ note_attrs
  let attributes_combined := join_with [' '] attributes
  trim_end ('[' :: status_char :: String.toList "] (" ++ t.priority.toList ++
    String.toList ") [[" ++ t.name.toList ++ String.toList "]] " ++
    trim_end attributes_combined)
where
  /-- Rust `str::replace("\"", "\"\"")`. -/
  escape_quotes : List Char → List Char
    | '"' :: r => '"' :: '"' :: escape_quotes r
    | c :: r => c :: escape_quotes r
    | [] => []

mutual

/-- `format_task_recursive_internal` (lines 91-101): the task's own line
(four spaces of indentation per level, then the list marker and the core
content), followed by the lines of its subtasks one level deeper. -/
def format_task_recursive_internal (t : Task) (indent_level : Nat) : List (List Char) :=
  (List.replicate (4 * indent_level) ' ' ++ ('-' :: ' ' :: format_task_core_content t)) ::
  (match t with
   | .mk _ _ _ _ _ _ _ _ _ _ _ _ _ subs _ _ =>
     match subs with
     | some l => format_subtask_list l (indent_level + 1)
     | none => [])

def format_subtask_list (l : List Task) (indent_level : Nat) : List (List Char) :=
  match l with
  | [] => []
  | t :: ts => format_task_recursive_internal t indent_level ++ format_subtask_list ts indent_level

end

/-- `format_tasks_to_markdown_document` (lines 104-111). -/
def format_tasks_to_markdown_document (tasks : List Task) : String :=
  ⟨join_with ['\n'] (format_subtask_list tasks 0)⟩

/-! ### The merge engine (src/apply_logic.rs)

`HashMap<i64, Task>` built by `collect` (later insertions overwrite
earlier ones) and used only through `remove` is modelled by the plain
association list of `(id, task)` pairs with last-match lookup and
erase-all removal, which is observably the same map. -/

/-- `existing_tasks_vec.into_iter().map(|t| (t.id, t)).collect()`
(lines 27-30). -/
def existing_tasks_map (existing : List Task) : List (Int × Task) :=
  existing.map (fun t => (t.id, t))

/-- `HashMap::get`-style lookup: the last inserted entry for the key. -/
def hm_lookup : List (Int × Task) → Int → Option Task
  | [], _ => none
  | (k, v) :: m, q =>
    match hm_lookup m q with
    | some r => some r
    | none => if k = q then some v else none

/-- `HashMap::remove`: the looked-up value plus the map without the key. -/
def hm_remove (m : List (Int × Task)) (q : Int) : Option Task × List (Int × Task) :=
  (hm_lookup m q, m.filter (fun p => p.1 ≠ q))

/-- The per-identifier update of a matched task (lines 46-82): editable
fields (name, status, priority, due, completed, notes, project, contexts,
tags, subtasks) are taken from the markdown task, `updated` is stamped
with today, `display_order` is taken from the markdown task, and `id`,
`created`, `extra` (and `repeat`) stay from the existing task. -/
def merge_into (existing_task md_task : Task) (today : Date) : Task :=
  .mk md_task.name md_task.status md_task.priority existing_task.id
    existing_task.created md_task.display_order md_task.due (some today)
    md_task.completed md_task.project md_task.contexts md_task.notes
    md_task.tags md_task.subtasks existing_task.extra existing_task.rep

/-- A new markdown task (lines 83-93): pushed as parsed, with `updated`
stamped to today (its `display_order` was already set to the counter). -/
def stamp_new (md_task : Task) (today : Date) : Task :=
  match md_task with
  | .mk a b c d e f g _ i j k l m n o p => .mk a b c d e f g (some today) i j k l m n o p

/-- The main loop of `apply_changes` (lines 41-94): process the markdown
tasks in order, setting `display_order` from the running counter, merging
into a removed existing record when the id matches and pushing the
stamped task otherwise. -/
def apply_changes_loop (m : List (Int × Task)) (md : List Task)
    (next_display_order : Int) (today : Date) : List Task :=
  match md with
  | [] => []
  | md_task :: rest =>
    let md_task' := md_task.setDisplayOrder next_display_order
    match hm_remove m md_task'.id with
    | (some existing_task, m') =>
      merge_into existing_task md_task' today ::
        apply_changes_loop m' rest (next_display_order + 1) today
    | (none, m') =>
      stamp_new md_task' today ::
        apply_changes_loop m' rest (next_display_order + 1) today

/-- `final_tasks.sort_by_key(|t| t.display_order)` (line 105): a stable
sort by `display_order`, written as insertion sort (extensionally any
stable sort). -/
def insert_by_display_order (t : Task) : List Task → List Task
  | [] => [t]
  | u :: us =>
    if t.display_order ≤ u.display_order then t :: u :: us
    else u :: insert_by_display_order t us

def sort_by_display_order : List Task → List Task
  | [] => []
  | t :: ts => insert_by_display_order t (sort_by_display_order ts)

/-- The renumbering pass (lines 109-111): `display_order = index + 1`. -/
def renumber_from : List Task → Int → List Task
  | [], _ => []
  | t :: ts, i => t.setDisplayOrder i :: renumber_from ts (i + 1)

/-- `apply_changes` (lines 18-115).  `today` models
`Local::now().date_naive()`; the Rust function's unused
`_default_created_date` parameter is dropped and its `Result` wrapper is
omitted because it returns `Ok` unconditionally. -/
def apply_changes (existing_tasks_vec : List Task) (markdown_tasks_vec : List Task)
    (today : Date) : List Task :=
  renumber_from
    (sort_by_display_order
      (apply_changes_loop (existing_tasks_map existing_tasks_vec)
        markdown_tasks_vec 1 today))
    1

/-! ### Helper lemmas -/

section Lemmas

@[simp] theorem Task.id_setId (t : Task) (v : Int) : (t.setId v).id = v := by
  cases t; rfl

@[simp] theorem Task.id_setDisplayOrder (t : Task) (v : Int) :
    (t.setDisplayOrder v).id = t.id := by cases t; rfl

@[simp] theorem Task.name_setDisplayOrder (t : Task) (v : Int) :
    (t.setDisplayOrder v).name = t.name := by cases t; rfl

@[simp] theorem Task.status_setDisplayOrder (t : Task) (v : Int) :
    (t.setDisplayOrder v).status = t.status := by cases t; rfl

@[simp] theorem Task.priority_setDisplayOrder (t : Task) (v : Int) :
    (t.setDisplayOrder v).priority = t.priority := by cases t; rfl

@[simp] theorem Task.created_setDisplayOrder (t : Task) (v : Int) :
    (t.setDisplayOrder v).created = t.created := by cases t; rfl

@[simp] theorem Task.due_setDisplayOrder (t : Task) (v : Int) :
    (t.setDisplayOrder v).due = t.due := by cases t; rfl

@[simp] theorem Task.updated_setDisplayOrder (t : Task) (v : Int) :
    (t.setDisplayOrder v).updated = t.updated := by cases t; rfl

@[simp] theorem Task.completed_setDisplayOrder (t : Task) (v : Int) :
    (t.setDisplayOrder v).completed = t.completed := by cases t; rfl

@[simp] theorem Task.project_setDisplayOrder (t : Task) (v : Int) :
    (t.setDisplayOrder v).project = t.project := by cases t; rfl

@[simp] theorem Task.contexts_setDisplayOrder (t : Task) (v : Int) :
    (t.setDisplayOrder v).contexts = t.contexts := by cases t; rfl

@[simp] theorem Task.notes_setDisplayOrder (t : Task) (v : Int) :
    (t.setDisplayOrder v).notes = t.notes := by cases t; rfl

@[simp] theorem Task.tags_setDisplayOrder (t : Task) (v : Int) :
    (t.setDisplayOrder v).tags = t.tags := by cases t; rfl

@[simp] theorem Task.subtasks_setDisplayOrder (t : Task) (v : Int) :
    (t.setDisplayOrder v).subtasks = t.subtasks := by cases t; rfl

@[simp] theorem Task.extra_setDisplayOrder (t : Task) (v : Int) :
    (t.setDisplayOrder v).extra = t.extra := by cases t; rfl

@[simp] theorem Task.display_order_setDisplayOrder (t : Task) (v : Int) :
    (t.setDisplayOrder v).display_order = v := by cases t; rfl

@[simp] theorem stamp_new_id (t : Task) (d : Date) : (stamp_new t d).id = t.id := by
  cases t; rfl

@[simp] theorem stamp_new_subtasks (t : Task) (d : Date) :
    (stamp_new t d).subtasks = t.subtasks := by cases t; rfl

@[simp] theorem stamp_new_display_order (t : Task) (d : Date) :
    (stamp_new t d).display_order = t.display_order := by cases t; rfl

/-- `hm_lookup` on a map without the key is `none`. -/
theorem hm_lookup_eq_none {m : List (Int × Task)} {q : Int}
    (h : ∀ p ∈ m, p.1 ≠ q) : hm_lookup m q = none := by
  induction m with
  | nil => rfl
  | cons p m ih =>
    simp only [hm_lookup]
    rw [ih (fun p hp => h p (List.mem_cons_of_mem _ hp))]
    simp [h p (List.mem_cons_self p m)]

/-- Looking up a key other than the erased one is unchanged. -/
theorem hm_lookup_filter_ne {m : List (Int × Task)} {q k : Int} (h : q ≠ k) :
    hm_lookup (m.filter (fun p => p.1 ≠ k)) q = hm_lookup m q := by
  induction m with
  | nil => rfl
  | cons p m ih =>
    by_cases hp : p.1 = k
    · rw [List.filter_cons_of_neg (by simp [hp]), ih]
      simp only [hm_lookup]
      rw [if_neg (by rw [hp]; exact fun hh => h hh.symm)]
      cases hm_lookup m q <;> rfl
    · rw [List.filter_cons_of_pos (by simp [hp])]
      simp only [hm_lookup, ih]

/-- Well-formedness of the id-keyed map: each entry's task carries the key. -/
def map_wf (m : List (Int × Task)) : Prop := ∀ p ∈ m, (p.2).id = p.1

theorem map_wf_existing (existing : List Task) : map_wf (existing_tasks_map existing) := by
  intro p hp
  simp only [existing_tasks_map, List.mem_map] at hp
  obtain ⟨t, _, rfl⟩ := hp
  rfl

theorem map_wf_filter {m : List (Int × Task)} (h : map_wf m) (k : Int) :
    map_wf (m.filter (fun p => p.1 ≠ k)) := by
  intro p hp
  exact h p (List.mem_of_mem_filter hp)

theorem hm_lookup_id {m : List (Int × Task)} {q : Int} {t : Task}
    (hwf : map_wf m) (h : hm_lookup m q = some t) : t.id = q := by
  induction m with
  | nil => simp [hm_lookup] at h
  | cons p m ih =>
    have hwf' : map_wf m := fun p hp => hwf p (List.mem_cons_of_mem _ hp)
    simp only [hm_lookup] at h
    cases hl : hm_lookup m q with
    | some r =>
      rw [hl] at h
      simp only [Option.some.injEq] at h
      exact ih hwf' (hl.trans (by rw [h]))
    | none =>
      rw [hl] at h
      by_cases hk : p.1 = q
      · rw [if_pos hk] at h
        simp only [Option.some.injEq] at h
        rw [← h, ← hk]
        exact hwf p (List.mem_cons_self p m)
      · rw [if_neg hk] at h
        cases h

/-- With distinct ids, the map built from the task list finds each task. -/
theorem hm_lookup_existing {existing : List Task} {t : Task}
    (hnd : (existing.map Task.id).Nodup) (ht : t ∈ existing) :
    hm_lookup (existing_tasks_map existing) t.id = some t := by
  induction existing with
  | nil => cases ht
  | cons u rest ih =>
    simp only [List.map_cons, List.nodup_cons] at hnd
    rcases List.mem_cons.mp ht with rfl | hmem
    · have hnone : hm_lookup (existing_tasks_map rest) t.id = none := by
        apply hm_lookup_eq_none
        intro p hp
        simp only [existing_tasks_map, List.mem_map] at hp
        obtain ⟨u', hu', rfl⟩ := hp
        intro hc
        exact hnd.1 (hc ▸ List.mem_map_of_mem Task.id hu')
      show hm_lookup ((t.id, t) :: existing_tasks_map rest) t.id = some t
      simp only [hm_lookup]
      rw [hnone]
      simp
    · show hm_lookup ((u.id, u) :: existing_tasks_map rest) t.id = some t
      simp only [hm_lookup]
      rw [ih hnd.2 hmem]

/-- A matched markdown task yields a merged record in the loop output. -/
theorem apply_loop_mem_merge (m : List (Int × Task)) (ord : Int) (today : Date)
    {md : List Task} {t_md t_old : Task}
    (hnd : (md.map Task.id).Nodup) (hmem : t_md ∈ md)
    (hl : hm_lookup m t_md.id = some t_old) :
    ∃ d, merge_into t_old (t_md.setDisplayOrder d) today ∈
      apply_changes_loop m md ord today := by
  induction md generalizing m ord with
  | nil => cases hmem
  | cons u rest ih =>
    simp only [List.map_cons, List.nodup_cons] at hnd
    rcases List.mem_cons.mp hmem with rfl | hmem'
    · refine ⟨ord, ?_⟩
      simp only [apply_changes_loop, hm_remove]
      rw [show (t_md.setDisplayOrder ord).id = t_md.id from Task.id_setDisplayOrder _ _, hl]
      exact List.mem_cons_self _ _
    · have hne : u.id ≠ t_md.id := by
        intro hc
        exact hnd.1 (hc ▸ List.mem_map_of_mem Task.id hmem')
      simp only [apply_changes_loop, hm_remove]
      rw [Task.id_setDisplayOrder]
      have hl' : hm_lookup (m.filter (fun p => p.1 ≠ u.id)) t_md.id = some t_old := by
        rw [hm_lookup_filter_ne (fun hc => hne hc.symm)]
        exact hl
      cases hlu : hm_lookup m u.id with
      | some w =>
        obtain ⟨d, hd⟩ := ih _ (ord + 1) hnd.2 hmem' hl'
        exact ⟨d, List.mem_cons_of_mem _ hd⟩
      | none =>
        obtain ⟨d, hd⟩ := ih _ (ord + 1) hnd.2 hmem' hl'
        exact ⟨d, List.mem_cons_of_mem _ hd⟩

/-- The loop preserves the markdown ids positionally (whatever the map). -/
theorem apply_loop_map_id {md : List Task} {m : List (Int × Task)} {ord : Int}
    {today : Date} (hwf : map_wf m) :
    (apply_changes_loop m md ord today).map Task.id = md.map Task.id := by
  induction md generalizing m ord with
  | nil => rfl
  | cons u rest ih =>
    simp only [apply_changes_loop, hm_remove]
    cases hlu : hm_lookup m (u.setDisplayOrder ord).id with
    | some w =>
      simp only [List.map_cons]
      rw [ih (map_wf_filter hwf _)]
      have : (merge_into w (u.setDisplayOrder ord) today).id = u.id := by
        have := hm_lookup_id hwf hlu
        simp only [Task.id_setDisplayOrder] at this
        show w.id = u.id
        exact this
      rw [this]
    | none =>
      simp only [List.map_cons]
      rw [ih (map_wf_filter hwf _)]
      rw [show (stamp_new (u.setDisplayOrder ord) today).id = u.id by
        rw [stamp_new_id, Task.id_setDisplayOrder]]

/-- The loop preserves the markdown subtask trees positionally. -/
theorem apply_loop_map_subtasks {md : List Task} {m : List (Int × Task)} {ord : Int}
    {today : Date} :
    (apply_changes_loop m md ord today).map Task.subtasks = md.map Task.subtasks := by
  induction md generalizing m ord with
  | nil => rfl
  | cons u rest ih =>
    simp only [apply_changes_loop, hm_remove]
    cases hlu : hm_lookup m (u.setDisplayOrder ord).id with
    | some w =>
      simp only [List.map_cons, ih]
      rw [show (merge_into w (u.setDisplayOrder ord) today).subtasks = u.subtasks by
        show (u.setDisplayOrder ord).subtasks = u.subtasks
        exact Task.subtasks_setDisplayOrder _ _]
    | none =>
      simp only [List.map_cons, ih]
      rw [show (stamp_new (u.setDisplayOrder ord) today).subtasks = u.subtasks by
        rw [stamp_new_subtasks, Task.subtasks_setDisplayOrder]]

/-- The list `i, i+1, ..., i+n-1` of integers. -/
def int_range_from (i : Int) : Nat → List Int
  | 0 => []
  | n + 1 => i :: int_range_from (i + 1) n

/-- The loop assigns consecutive display orders starting at `ord`. -/
theorem apply_loop_map_display {md : List Task} {m : List (Int × Task)} {ord : Int}
    {today : Date} :
    (apply_changes_loop m md ord today).map Task.display_order =
      int_range_from ord md.length := by
  induction md generalizing m ord with
  | nil => rfl
  | cons u rest ih =>
    simp only [apply_changes_loop, hm_remove, List.length_cons, int_range_from]
    cases hlu : hm_lookup m (u.setDisplayOrder ord).id with
    | some w =>
      simp only [List.map_cons, ih]
      rw [show (merge_into w (u.setDisplayOrder ord) today).display_order = ord by
        show (u.setDisplayOrder ord).display_order = ord
        exact Task.display_order_setDisplayOrder _ _]
    | none =>
      simp only [List.map_cons, ih]
      rw [show (stamp_new (u.setDisplayOrder ord) today).display_order = ord by
        rw [stamp_new_display_order, Task.display_order_setDisplayOrder]]

/-- The loop output has one record per markdown task. -/
theorem apply_loop_length {md : List Task} {m : List (Int × Task)} {ord : Int}
    {today : Date} :
    (apply_changes_loop m md ord today).length = md.length := by
  induction md generalizing m ord with
  | nil => rfl
  | cons u rest ih =>
    simp only [apply_changes_loop, hm_remove]
    cases hm_lookup m (u.setDisplayOrder ord).id <;> simp [ih]

/-- Membership is preserved by the insertion sort. -/
theorem mem_insert_by {t u : Task} {l : List Task} :
    u ∈ insert_by_display_order t l ↔ u = t ∨ u ∈ l := by
  induction l with
  | nil => simp [insert_by_display_order]
  | cons v vs ih =>
    simp only [insert_by_display_order]
    split
    · simp [List.mem_cons]
    · simp only [List.mem_cons, ih]
      tauto

theorem mem_sort_by_display_order {t : Task} {l : List Task} :
    t ∈ sort_by_display_order l ↔ t ∈ l := by
  induction l with
  | nil => simp [sort_by_display_order]
  | cons v vs ih =>
    simp only [sort_by_display_order, mem_insert_by, List.mem_cons, ih]

theorem length_insert_by (t : Task) (l : List Task) :
    (insert_by_display_order t l).length = l.length + 1 := by
  induction l with
  | nil => rfl
  | cons v vs ih =>
    simp only [insert_by_display_order]
    split
    · simp
    · simp [ih]

theorem length_sort_by_display_order (l : List Task) :
    (sort_by_display_order l).length = l.length := by
  induction l with
  | nil => rfl
  | cons v vs ih => simp [sort_by_display_order, length_insert_by, ih]

/-- On a list already sorted by display order the sort is the identity. -/
theorem sort_by_display_order_sorted {l : List Task}
    (h : l.Pairwise (fun a b => a.display_order ≤ b.display_order)) :
    sort_by_display_order l = l := by
  induction l with
  | nil => rfl
  | cons v vs ih =>
    simp only [List.pairwise_cons] at h
    simp only [sort_by_display_order, ih h.2]
    cases vs with
    | nil => rfl
    | cons w ws =>
      simp only [insert_by_display_order]
      rw [if_pos (h.1 w (List.mem_cons_self w ws))]

theorem renumber_length (l : List Task) (i : Int) :
    (renumber_from l i).length = l.length := by
  induction l generalizing i with
  | nil => rfl
  | cons v vs ih => simp [renumber_from, ih]

theorem renumber_map_id (l : List Task) (i : Int) :
    (renumber_from l i).map Task.id = l.map Task.id := by
  induction l generalizing i with
  | nil => rfl
  | cons v vs ih => simp [renumber_from, ih]

theorem renumber_map_subtasks (l : List Task) (i : Int) :
    (renumber_from l i).map Task.subtasks = l.map Task.subtasks := by
  induction l generalizing i with
  | nil => rfl
  | cons v vs ih => simp [renumber_from, ih]

theorem renumber_map_display (l : List Task) (i : Int) :
    (renumber_from l i).map Task.display_order = int_range_from i l.length := by
  induction l generalizing i with
  | nil => rfl
  | cons v vs ih =>
    simp only [renumber_from, List.map_cons, Task.display_order_setDisplayOrder,
      List.length_cons, int_range_from, ih]

theorem renumber_mem {t : Task} {l : List Task} (i : Int) (h : t ∈ l) :
    ∃ d, t.setDisplayOrder d ∈ renumber_from l i := by
  induction l generalizing i with
  | nil => cases h
  | cons v vs ih =>
    rcases List.mem_cons.mp h with rfl | hmem
    · exact ⟨i, List.mem_cons_self _ _⟩
    · obtain ⟨d, hd⟩ := ih (i + 1) hmem
      exact ⟨d, List.mem_cons_of_mem _ hd⟩

theorem mem_int_range_from {x i : Int} {n : Nat} (h : x ∈ int_range_from i n) :
    i ≤ x := by
  induction n generalizing i with
  | zero => cases h
  | succ n ih =>
    rcases List.mem_cons.mp h with rfl | hm
    · exact le_refl x
    · exact le_trans (by omega) (ih hm)

theorem pairwise_int_range_from (i : Int) (n : Nat) :
    (int_range_from i n).Pairwise (· ≤ ·) := by
  induction n generalizing i with
  | zero => exact List.Pairwise.nil
  | succ n ih =>
    refine List.Pairwise.cons ?_ (ih (i + 1))
    intro x hx
    exact le_trans (by omega) (mem_int_range_from hx)

/-- The loop output is already sorted, so the source's re-sort is the
identity on it. -/
theorem sort_apply_loop {md : List Task} {m : List (Int × Task)} {today : Date} :
    sort_by_display_order (apply_changes_loop m md 1 today) =
      apply_changes_loop m md 1 today := by
  apply sort_by_display_order_sorted
  have h := pairwise_int_range_from 1 md.length
  rw [← @apply_loop_map_display md m 1 today] at h
  exact (List.pairwise_map.mp h)

theorem takeWhile_append_stop {p : Char → Bool} {l1 l2 : List Char} {x : Char}
    (h1 : ∀ a ∈ l1, p a) (hx : p x = false) :
    (l1 ++ x :: l2).takeWhile p = l1 := by
  induction l1 with
  | nil => simp [List.takeWhile, hx]
  | cons a l ih =>
    simp [List.takeWhile, h1 a (List.mem_cons_self a l),
      ih (fun b hb => h1 b (List.mem_cons_of_mem _ hb))]

theorem dropWhile_append_stop {p : Char → Bool} {l1 l2 : List Char} {x : Char}
    (h1 : ∀ a ∈ l1, p a) (hx : p x = false) :
    (l1 ++ x :: l2).dropWhile p = x :: l2 := by
  induction l1 with
  | nil => simp [List.dropWhile, hx]
  | cons a l ih =>
    simp only [List.cons_append, List.dropWhile]
    rw [h1 a (List.mem_cons_self a l)]
    exact ih (fun b hb => h1 b (List.mem_cons_of_mem _ hb))

theorem takeWhile_of_all {p : Char → Bool} {l : List Char}
    (h : ∀ a ∈ l, p a) : l.takeWhile p = l := by
  induction l with
  | nil => rfl
  | cons a l ih =>
    simp only [List.takeWhile]
    rw [h a (List.mem_cons_self a l), ih (fun b hb => h b (List.mem_cons_of_mem _ hb))]

theorem digits_to_nat_aux (ds : List Char) (a : Nat)
    (h : ∀ c ∈ ds, is_digit_char c) :
    List.foldl (fun a c => a * 10 + (c.toNat - '0'.toNat)) a ds < (a + 1) * 10 ^ ds.length := by
  induction ds generalizing a with
  | nil => simp
  | cons c ds ih =>
    have hc : c.toNat - '0'.toNat ≤ 9 := by
      have := h c (List.mem_cons_self c ds)
      simp only [is_digit_char, Bool.and_eq_true, decide_eq_true_eq] at this
      have h1 : c.toNat ≤ 57 := this.2
      have h2 : 48 ≤ c.toNat := this.1
      have h0 : Char.toNat '0' = 48 := rfl
      omega
    simp only [List.foldl_cons, List.length_cons]
    calc List.foldl (fun a c => a * 10 + (c.toNat - '0'.toNat))
          (a * 10 + (c.toNat - '0'.toNat)) ds
        < (a * 10 + (c.toNat - '0'.toNat) + 1) * 10 ^ ds.length :=
          ih _ (fun b hb => h b (List.mem_cons_of_mem _ hb))
      _ ≤ (a + 1) * 10 ^ (ds.length + 1) := by
          have : a * 10 + (c.toNat - '0'.toNat) + 1 ≤ (a + 1) * 10 := by omega
          calc (a * 10 + (c.toNat - '0'.toNat) + 1) * 10 ^ ds.length
              ≤ ((a + 1) * 10) * 10 ^ ds.length := Nat.mul_le_mul_right _ this
            _ = (a + 1) * 10 ^ (ds.length + 1) := by ring

theorem digits_to_nat_lt {ds : List Char} (h : ds.all is_digit_char) :
    digits_to_nat ds < 10 ^ ds.length := by
  have := digits_to_nat_aux ds 0 (by simpa [List.all_eq_true] using h)
  simpa [digits_to_nat] using this

theorem except_map_isOk {ε α β : Type} (f : α → β) (x : Except ε α) :
    (Except.map f x).isOk = x.isOk := by
  cases x <;> rfl

theorem except_map_eq_error {ε α β : Type} {f : α → β} {x : Except ε α} {e : ε} :
    Except.map f x = .error e ↔ x = .error e := by
  cases x <;> simp [Except.map]

theorem except_map_eq_ok {ε α β : Type} {f : α → β} {x : Except ε α} {b : β} :
    Except.map f x = .ok b ↔ ∃ a, x = .ok a ∧ b = f a := by
  cases x <;> simp [Except.map, eq_comm]

/-- The line parser succeeds exactly when the base regex matches the
trimmed line. -/
theorem parse_line_isOk (line : List Char) (di : Int) (dc : Date) (dord y : Int) :
    (parse_markdown_line_to_task line di dc dord y).isOk =
      (base_match (trim_both (trim_start_dash_space line))).isSome := by
  cases h : base_match (trim_both (trim_start_dash_space line)) with
  | none => simp [parse_markdown_line_to_task, h, Except.isOk, Except.toBool]
  | some caps => simp [parse_markdown_line_to_task, h, Except.isOk, Except.toBool]

/-- The line parser's only error is the base-shape mismatch, carrying the
offending (trimmed) line text. -/
theorem parse_line_error {line : List Char} {di : Int} {dc : Date} {dord y : Int}
    {e : String} (h : parse_markdown_line_to_task line di dc dord y = .error e) :
    base_match (trim_both (trim_start_dash_space line)) = none ∧
      e = line_error_msg (trim_both (trim_start_dash_space line)) := by
  cases hb : base_match (trim_both (trim_start_dash_space line)) with
  | none =>
    simp only [parse_markdown_line_to_task, hb] at h
    cases h
    exact ⟨rfl, rfl⟩
  | some caps =>
    simp only [parse_markdown_line_to_task, hb] at h
    cases h

/-- The success predicate for a raw document line. -/
def line_shape_ok (l : List Char) : Bool :=
  (base_match (trim_both (trim_start_dash_space (strip_indent_and_marker l)))).isSome

theorem flat_go_ok (ls : List (List Char)) (dc : Date) (y : Int) :
    ∀ (na : Int) (ex : Finset ℤ) (disp : Int),
    ((parse_flat_items_go ls dc y na ex disp).isOk = true ↔
        ∀ l ∈ ls, line_shape_ok l = true) ∧
      (∀ e, parse_flat_items_go ls dc y na ex disp = .error e →
        ∃ l ∈ ls, line_shape_ok l = false ∧
          e = line_error_msg (trim_both (trim_start_dash_space (strip_indent_and_marker l)))) := by
  induction ls with
  | nil =>
    intro na ex disp
    constructor
    · simp [parse_flat_items_go, Except.isOk, Except.toBool]
    · intro e h
      simp only [parse_flat_items_go] at h
      cases h
  | cons l rest ih =>
    intro na ex disp
    cases hp : parse_markdown_line_to_task (strip_indent_and_marker l) 0 dc disp y with
    | error e0 =>
      obtain ⟨hb, he⟩ := parse_line_error hp
      have hshape : line_shape_ok l = false := by
        simp [line_shape_ok, hb]
      constructor
      · constructor
        · intro hok
          simp only [parse_flat_items_go, hp] at hok
          cases hok
        · intro hall
          have := hall l (List.mem_cons_self l rest)
          rw [hshape] at this
          cases this
      · intro e h
        simp only [parse_flat_items_go, hp] at h
        cases h
        exact ⟨l, List.mem_cons_self l rest, hshape, he⟩
    | ok task =>
      have hshape : line_shape_ok l = true := by
        have := parse_line_isOk (strip_indent_and_marker l) 0 dc disp y
        rw [hp] at this
        simpa [line_shape_ok, Except.isOk, Except.toBool] using this.symm
      have hnext : ∀ (na' : Int) (ex' : Finset ℤ) (cont : List (Task × Nat) → List (Task × Nat)),
          ((Except.map cont (parse_flat_items_go rest dc y na' ex' (disp + 1))).isOk = true ↔
              ∀ l' ∈ l :: rest, line_shape_ok l' = true) ∧
            (∀ e, Except.map cont (parse_flat_items_go rest dc y na' ex' (disp + 1)) = .error e →
              ∃ l' ∈ l :: rest, line_shape_ok l' = false ∧
                e = line_error_msg (trim_both (trim_start_dash_space (strip_indent_and_marker l')))) := by
        intro na' ex' cont
        constructor
        · rw [except_map_isOk]
          rw [(ih na' ex' (disp + 1)).1]
          constructor
          · intro hall l' hl'
            rcases List.mem_cons.mp hl' with rfl | hm
            · exact hshape
            · exact hall l' hm
          · intro hall l' hl'
            exact hall l' (List.mem_cons_of_mem _ hl')
        · intro e h
          rw [except_map_eq_error] at h
          obtain ⟨l', hl', hsh, hmsg⟩ := (ih na' ex' (disp + 1)).2 e h
          exact ⟨l', List.mem_cons_of_mem _ hl', hsh, hmsg⟩
      by_cases hid : task.id ≠ 0
      · have hred : parse_flat_items_go (l :: rest) dc y na ex disp =
            Except.map (fun items => (task, calculate_indent_level l) :: items)
              (parse_flat_items_go rest dc y na (insert task.id ex) (disp + 1)) := by
          simp only [parse_flat_items_go, hp]
          rw [if_pos hid]
        rw [hred]
        exact hnext _ _ _
      · have hred : parse_flat_items_go (l :: rest) dc y na ex disp =
            Except.map (fun items =>
                (task.setId (alloc_from ex na), calculate_indent_level l) :: items)
              (parse_flat_items_go rest dc y (alloc_from ex na + 1)
                (insert (alloc_from ex na) ex) (disp + 1)) := by
          simp only [parse_flat_items_go, hp]
          rw [if_neg hid]
        rw [hred]
        exact hnext _ _ _

/-- The explicit identifier of a task line as the line parser extracts it
(default 0 when missing, unparseable, or overflowing, exactly as the
parser's `unwrap_or(0)` with the document parser's default id 0). -/
def line_explicit_id (l : List Char) : Int :=
  match base_match (trim_both (trim_start_dash_space (strip_indent_and_marker l))) with
  | some caps => ((id_capture (trim_both caps.attributes_str)).bind parse_i64).getD 0
  | none => 0

mutual

/-- All identifiers of a task's subtree, depth first. -/
def task_subtree_ids : Task → List Int
  | .mk _ _ _ i _ _ _ _ _ _ _ _ _ subs _ _ =>
    i :: (match subs with
          | some l => forest_ids l
          | none => [])

/-- All identifiers of a forest, depth first. -/
def forest_ids : List Task → List Int
  | [] => []
  | t :: ts => task_subtree_ids t ++ forest_ids ts

end

/-- The allocation loop's result is fresh and at least the counter. -/
theorem alloc_aux_spec : ∀ (fuel : Nat) (ex : Finset ℤ) (n : Int),
    (ex.filter (fun x => n ≤ x)).card < fuel →
    alloc_aux fuel ex n ∉ ex ∧ n ≤ alloc_aux fuel ex n := by
  intro fuel
  induction fuel with
  | zero => intro ex n h; omega
  | succ fuel ih =>
    intro ex n h
    by_cases hn : n ∈ ex
    · have hmem : n ∈ ex.filter (fun x => n ≤ x) := by
        simp [Finset.mem_filter, hn]
      have hsub : ex.filter (fun x => n + 1 ≤ x) ⊆ (ex.filter (fun x => n ≤ x)).erase n := by
        intro x hx
        simp only [Finset.mem_filter] at hx
        rw [Finset.mem_erase]
        refine ⟨by omega, ?_⟩
        simp only [Finset.mem_filter]
        exact ⟨hx.1, by omega⟩
      have hcard : (ex.filter (fun x => n + 1 ≤ x)).card < fuel := by
        have h1 := Finset.card_le_card hsub
        have h2 := Finset.card_erase_of_mem hmem
        have h3 : 0 < (ex.filter (fun x => n ≤ x)).card := Finset.card_pos.mpr ⟨n, hmem⟩
        omega
      have := ih ex (n + 1) hcard
      simp only [alloc_aux, if_pos hn]
      exact ⟨this.1, by omega⟩
    · simp only [alloc_aux, if_neg hn]
      exact ⟨hn, le_refl n⟩

theorem alloc_from_spec (ex : Finset ℤ) (n : Int) :
    alloc_from ex n ∉ ex ∧ n ≤ alloc_from ex n :=
  alloc_aux_spec (ex.card + 1) ex n
    (Nat.lt_succ_of_le (Finset.card_filter_le ex (fun x => n ≤ x)))

/-- A successful line parse (with default id 0) carries the line's
explicit identifier, and no subtasks yet. -/
theorem parse_line_id {l : List Char} {dc : Date} {disp y : Int} {task : Task}
    (h : parse_markdown_line_to_task (strip_indent_and_marker l) 0 dc disp y = .ok task) :
    task.id = line_explicit_id l ∧ task.subtasks = none := by
  cases hb : base_match (trim_both (trim_start_dash_space (strip_indent_and_marker l))) with
  | none =>
    simp only [parse_markdown_line_to_task, hb] at h
    cases h
  | some caps =>
    simp only [parse_markdown_line_to_task, hb] at h
    cases h
    simp only [line_explicit_id, hb]
    constructor
    · cases hc : id_capture (trim_both caps.attributes_str) with
      | none => simp [hc, Task.id]
      | some ds => simp [hc, Task.id, Option.bind]
    · rfl

/-- The explicit identifier is never negative (a captured value parses to
`Int.ofNat`, the default is 0). -/
theorem line_explicit_id_nonneg (l : List Char) : 0 ≤ line_explicit_id l := by
  simp only [line_explicit_id]
  cases base_match (trim_both (trim_start_dash_space (strip_indent_and_marker l))) with
  | none => simp
  | some caps =>
    cases hc : id_capture (trim_both caps.attributes_str) with
    | none => simp [hc]
    | some ds =>
      simp only [hc, Option.some_bind, parse_i64]
      split
      · simp [Int.ofNat_nonneg]
      · simp

@[simp] theorem Task.subtasks_setId (t : Task) (v : Int) :
    (t.setId v).subtasks = t.subtasks := by cases t; rfl

theorem forest_ids_append (l1 l2 : List Task) :
    forest_ids (l1 ++ l2) = forest_ids l1 ++ forest_ids l2 := by
  induction l1 with
  | nil => rfl
  | cons t ts ih => simp [forest_ids, ih]

theorem task_subtree_ids_attach (p c : Task) :
    task_subtree_ids (attach_child p c) =
      task_subtree_ids p ++ task_subtree_ids c := by
  cases p with
  | mk a b cc d e f g h i j k l m subs o q =>
    cases subs with
    | none => simp [attach_child, task_subtree_ids, forest_ids, forest_ids_append]
    | some sl => simp [attach_child, task_subtree_ids, forest_ids, forest_ids_append]

theorem task_subtree_ids_leaf {t : Task} (h : t.subtasks = none) :
    task_subtree_ids t = [t.id] := by
  cases t with
  | mk a b cc d e f g hh i j k l m subs o q =>
    simp only [Task.subtasks] at h
    subst h
    rfl

/-- Multiset of subtree identifiers held on the assembly stack. -/
def stack_ids : List (Task × Nat) → Multiset Int
  | [] => 0
  | (t, _) :: st => (task_subtree_ids t : Multiset Int) + stack_ids st

/-- Multiset of subtree identifiers of the flat items. -/
def items_ids : List (Task × Nat) → Multiset Int
  | [] => 0
  | (t, _) :: r => (task_subtree_ids t : Multiset Int) + items_ids r

theorem pop_go_ids (lvl : Nat) : ∀ (fuel : Nat) (st : List (Task × Nat)) (roots : List Task),
    (forest_ids (pop_to_level_go lvl fuel st roots).2 : Multiset Int) +
        stack_ids (pop_to_level_go lvl fuel st roots).1 =
      (forest_ids roots : Multiset Int) + stack_ids st := by
  intro fuel
  induction fuel with
  | zero => intro st roots; rfl
  | succ fuel ih =>
    intro st roots
    match st with
    | [] => rfl
    | (c, cl) :: rest =>
      simp only [pop_to_level_go]
      split
      · match rest with
        | (p, pl) :: rest2 =>
          rw [ih]
          simp only [stack_ids, task_subtree_ids_attach, ← Multiset.coe_add]
          abel
        | [] =>
          rw [ih]
          simp only [stack_ids, forest_ids_append, forest_ids, List.append_nil,
            ← Multiset.coe_add]
          abel
      · rfl

theorem collapse_go_ids : ∀ (fuel : Nat) (st : List (Task × Nat)) (roots : List Task),
    st.length ≤ fuel →
    (forest_ids (collapse_stack_go fuel st roots) : Multiset Int) =
      (forest_ids roots : Multiset Int) + stack_ids st := by
  intro fuel
  induction fuel with
  | zero =>
    intro st roots h
    match st with
    | [] => simp [collapse_stack_go, stack_ids]
    | _ :: _ => simp at h
  | succ fuel ih =>
    intro st roots h
    match st with
    | [] => simp [collapse_stack_go, stack_ids]
    | (c, cl) :: rest =>
      simp only [collapse_stack_go]
      match rest with
      | (p, pl) :: rest2 =>
        rw [ih _ _ (by simpa using Nat.le_of_succ_le_succ (by simpa using h))]
        simp only [stack_ids, task_subtree_ids_attach, ← Multiset.coe_add]
        abel
      | [] =>
        simp only [forest_ids_append, forest_ids, stack_ids, List.append_nil,
          ← Multiset.coe_add]
        abel

theorem build_go_ids : ∀ (items : List (Task × Nat)) (st : List (Task × Nat))
    (roots : List Task),
    (forest_ids (build_forest_go items st roots) : Multiset Int) =
      items_ids items + (forest_ids roots : Multiset Int) + stack_ids st := by
  intro items
  induction items with
  | nil =>
    intro st roots
    simp only [build_forest_go, collapse_stack]
    rw [collapse_go_ids _ _ _ (le_refl _)]
    simp [items_ids]
  | cons it items ih =>
    intro st roots
    match it with
    | (t, lvl) =>
      simp only [build_forest_go]
      rw [ih]
      simp only [stack_ids, items_ids]
      have hpop := pop_go_ids lvl st.length st roots
      simp only [pop_to_level] at *
      have key : items_ids items +
          (forest_ids (pop_to_level_go lvl st.length st roots).2 : Multiset Int) +
          ((task_subtree_ids t : Multiset Int) +
            stack_ids (pop_to_level_go lvl st.length st roots).1) =
          (task_subtree_ids t : Multiset Int) + items_ids items +
          ((forest_ids (pop_to_level_go lvl st.length st roots).2 : Multiset Int) +
            stack_ids (pop_to_level_go lvl st.length st roots).1) := by abel
      rw [key, hpop]
      abel

theorem build_forest_ids (items : List (Task × Nat)) :
    (forest_ids (build_forest items) : Multiset Int) = items_ids items := by
  rw [build_forest, build_go_ids]
  simp [stack_ids, forest_ids]

/-- Every flat item comes out of the line parser with no subtasks. -/
theorem flat_go_subtasks {ls : List (List Char)} {dc : Date} {y : Int} :
    ∀ {na : Int} {ex : Finset ℤ} {disp : Int} {items : List (Task × Nat)},
    parse_flat_items_go ls dc y na ex disp = .ok items →
    ∀ it ∈ items, (it : Task × Nat).1.subtasks = none := by
  induction ls with
  | nil =>
    intro na ex disp items h
    simp only [parse_flat_items_go] at h
    cases h
    intro it hit
    cases hit
  | cons l rest ih =>
    intro na ex disp items h
    cases hp : parse_markdown_line_to_task (strip_indent_and_marker l) 0 dc disp y with
    | error e0 =>
      simp only [parse_flat_items_go, hp] at h
      cases h
    | ok task =>
      have hsub := (parse_line_id hp).2
      simp only [parse_flat_items_go, hp] at h
      split at h
      · rw [except_map_eq_ok] at h
        obtain ⟨items', hrec, rfl⟩ := h
        intro it hit
        rcases List.mem_cons.mp hit with rfl | hm
        · exact hsub
        · exact ih hrec it hm
      · rw [except_map_eq_ok] at h
        obtain ⟨items', hrec, rfl⟩ := h
        intro it hit
        rcases List.mem_cons.mp hit with rfl | hm
        · rw [Task.subtasks_setId]
          exact hsub
        · exact ih hrec it hm

theorem items_ids_of_leaves {items : List (Task × Nat)}
    (h : ∀ it ∈ items, (it : Task × Nat).1.subtasks = none) :
    items_ids items = ↑(items.map (fun it => (it : Task × Nat).1.id)) := by
  induction items with
  | nil => rfl
  | cons it items ih =>
    match it with
    | (t, lvl) =>
      simp only [items_ids, List.map_cons]
      rw [task_subtree_ids_leaf (h (t, lvl) (List.mem_cons_self _ _))]
      rw [ih (fun x hx => h x (List.mem_cons_of_mem _ hx))]
      rfl

/-- The id resolution of the second parsing pass: explicit positive ids
are kept; missing ids are auto-allocated outside the running collision
set (which only ever grows) and strictly above the running counter. -/
theorem flat_go_ids {ls : List (List Char)} {dc : Date} {y : Int} :
    ∀ {na : Int} {ex : Finset ℤ} {disp : Int} {items : List (Task × Nat)},
    parse_flat_items_go ls dc y na ex disp = .ok items →
    List.Forall₂ (fun l it =>
        (1 ≤ line_explicit_id l → (it : Task × Nat).1.id = line_explicit_id l) ∧
        (line_explicit_id l = 0 → it.1.id ∉ ex ∧ na ≤ it.1.id)) ls items ∧
      (ls.zip items).Pairwise (fun a b =>
        line_explicit_id a.1 = 0 → line_explicit_id b.1 = 0 →
          (a.2 : Task × Nat).1.id ≠ (b.2 : Task × Nat).1.id) := by
  induction ls with
  | nil =>
    intro na ex disp items h
    simp only [parse_flat_items_go] at h
    cases h
    exact ⟨List.Forall₂.nil, List.Pairwise.nil⟩
  | cons l rest ih =>
    intro na ex disp items h
    cases hp : parse_markdown_line_to_task (strip_indent_and_marker l) 0 dc disp y with
    | error e0 =>
      simp only [parse_flat_items_go, hp] at h
      cases h
    | ok task =>
      have hid := (parse_line_id hp).1
      simp only [parse_flat_items_go, hp] at h
      split at h
      · -- explicit id branch
        rename_i hne
        rw [except_map_eq_ok] at h
        obtain ⟨items', hrec, rfl⟩ := h
        obtain ⟨hf2, hpw⟩ := ih hrec
        have he1 : line_explicit_id l ≠ 0 := hid ▸ hne
        constructor
        · refine List.Forall₂.cons ⟨fun _ => hid, fun h0 => absurd (hid.trans h0) hne⟩ ?_
          refine hf2.imp ?_
          intro a b hab
          refine ⟨hab.1, fun h0 => ?_⟩
          obtain ⟨hnot, hle⟩ := hab.2 h0
          exact ⟨fun hmem => hnot (Finset.mem_insert_of_mem hmem), hle⟩
        · simp only [List.zip_cons_cons]
          refine List.Pairwise.cons ?_ hpw
          intro b _ h0 _
          exact absurd (hid.trans h0) hne
      · -- auto-allocated branch
        rename_i hz
        have hz' : task.id = 0 := by
          by_contra hc
          exact hz hc
        have he0 : line_explicit_id l = 0 := hid ▸ hz'
        rw [except_map_eq_ok] at h
        obtain ⟨items', hrec, rfl⟩ := h
        obtain ⟨hf2, hpw⟩ := ih hrec
        obtain ⟨halloc_notmem, halloc_ge⟩ := alloc_from_spec ex na
        constructor
        · refine List.Forall₂.cons ⟨fun h1 => absurd (he0 ▸ h1) (by norm_num), ?_⟩ ?_
          · intro _
            rw [Task.id_setId]
            exact ⟨halloc_notmem, halloc_ge⟩
          · refine hf2.imp ?_
            intro a b hab
            refine ⟨hab.1, fun h0 => ?_⟩
            obtain ⟨hnot, hle⟩ := hab.2 h0
            refine ⟨fun hmem => hnot (Finset.mem_insert_of_mem hmem), by omega⟩
        · simp only [List.zip_cons_cons]
          refine List.Pairwise.cons ?_ hpw
          intro b hb _ hb0
          have hblen := (List.forall₂_iff_zip.mp hf2).2 hb
          obtain ⟨hnot, _⟩ := hblen.2 hb0
          rw [Task.id_setId]
          intro hc
          exact hnot (hc ▸ Finset.mem_insert_self _ _)

end Lemmas

/-! ### The claims -/

/-- C1: for collections with unique identifiers, every identifier matched
between the prior collection and the new forest yields a merged record
whose editable fields (name, status, priority, due, completed, notes,
project, contexts, tags, subtasks) equal the new document's values, whose
id, created and extra equal the prior record's values, and whose updated
field is the processing date. -/
theorem claim_C1 (existing md : List Task) (today : Date) (t_old t_md : Task)
    (hnd_e : (existing.map Task.id).Nodup) (hnd_m : (md.map Task.id).Nodup)
    (h_old : t_old ∈ existing) (h_md : t_md ∈ md) (h_id : t_old.id = t_md.id) :
    ∃ t_out ∈ apply_changes existing md today,
      t_out.name = t_md.name ∧ t_out.status = t_md.status ∧
      t_out.priority = t_md.priority ∧ t_out.due = t_md.due ∧
      t_out.completed = t_md.completed ∧ t_out.notes = t_md.notes ∧
      t_out.project = t_md.project ∧ t_out.contexts = t_md.contexts ∧
      t_out.tags = t_md.tags ∧ t_out.subtasks = t_md.subtasks ∧
      t_out.id = t_old.id ∧ t_out.created = t_old.created ∧
      t_out.extra = t_old.extra ∧ t_out.updated = some today := by
  have hl : hm_lookup (existing_tasks_map existing) t_md.id = some t_old := by
    rw [← h_id]
    exact hm_lookup_existing hnd_e h_old
  obtain ⟨d, hd⟩ := apply_loop_mem_merge (existing_tasks_map existing)
    1 today hnd_m h_md hl
  have hd' := mem_sort_by_display_order.mpr hd
  obtain ⟨d2, hd2⟩ := renumber_mem 1 hd'
  refine ⟨_, hd2, ?_⟩
  cases t_old with
  | mk a b c dd e f g h i j k l mm n o p =>
    cases t_md with
    | mk a' b' c' dd' e' f' g' h' i' j' k' l' mm' n' o' p' =>
      simp [merge_into, Task.setDisplayOrder, stamp_new, Task.name, Task.status,
        Task.priority, Task.id, Task.created, Task.due, Task.completed, Task.notes,
        Task.project, Task.contexts, Task.tags, Task.subtasks, Task.extra, Task.updated]

/-- Witness for C1 at a concrete input: the prior record of the spec's
own example (id 1, name Old, a due date, a project, an extra payload)
merged with the minimal markdown task `New` of the same id. -/
theorem claim_C1_witness :
    ∃ t_out ∈ apply_changes
        [Task.mk "Old" "open" "N" 1 ⟨2023, 1, 1⟩ 1 (some ⟨2023, 12, 31⟩) none none
          (some "X") none none none none (some [("k", "v")]) none]
        [Task.mk "New" "open" "N" 1 ⟨2025, 6, 1⟩ 1 none none none
          none none none none none none none]
        ⟨2025, 6, 1⟩,
      t_out.name = (Task.mk "New" "open" "N" 1 ⟨2025, 6, 1⟩ 1 none none none
          none none none none none none none : Task).name ∧
      t_out.status = (Task.mk "New" "open" "N" 1 ⟨2025, 6, 1⟩ 1 none none none
          none none none none none none none : Task).status ∧
      t_out.priority = (Task.mk "New" "open" "N" 1 ⟨2025, 6, 1⟩ 1 none none none
          none none none none none none none : Task).priority ∧
      t_out.due = (Task.mk "New" "open" "N" 1 ⟨2025, 6, 1⟩ 1 none none none
          none none none none none none none : Task).due ∧
      t_out.completed = (Task.mk "New" "open" "N" 1 ⟨2025, 6, 1⟩ 1 none none none
          none none none none none none none : Task).completed ∧
      t_out.notes = (Task.mk "New" "open" "N" 1 ⟨2025, 6, 1⟩ 1 none none none
          none none none none none none none : Task).notes ∧
      t_out.project = (Task.mk "New" "open" "N" 1 ⟨2025, 6, 1⟩ 1 none none none
          none none none none none none none : Task).project ∧
      t_out.contexts = (Task.mk "New" "open" "N" 1 ⟨2025, 6, 1⟩ 1 none none none
          none none none none none none none : Task).contexts ∧
      t_out.tags = (Task.mk "New" "open" "N" 1 ⟨2025, 6, 1⟩ 1 none none none
          none none none none none none none : Task).tags ∧
      t_out.subtasks = (Task.mk "New" "open" "N" 1 ⟨2025, 6, 1⟩ 1 none none none
          none none none none none none none : Task).subtasks ∧
      t_out.id = (Task.mk "Old" "open" "N" 1 ⟨2023, 1, 1⟩ 1 (some ⟨2023, 12, 31⟩)
          none none (some "X") none none none none (some [("k", "v")]) none : Task).id ∧
      t_out.created = (Task.mk "Old" "open" "N" 1 ⟨2023, 1, 1⟩ 1 (some ⟨2023, 12, 31⟩)
          none none (some "X") none none none none (some [("k", "v")]) none : Task).created ∧
      t_out.extra = (Task.mk "Old" "open" "N" 1 ⟨2023, 1, 1⟩ 1 (some ⟨2023, 12, 31⟩)
          none none (some "X") none none none none (some [("k", "v")]) none : Task).extra ∧
      t_out.updated = some ⟨2025, 6, 1⟩ :=
  claim_C1 _ _ _ _ _
    (by simp [Task.id]) (by simp [Task.id])
    (List.mem_singleton_self _) (List.mem_singleton_self _) rfl

/-- C3: identifiers absent from the new document are absent from the
merged output, and the merged output has exactly one record per new
document task. -/
theorem claim_C3 (existing md : List Task) (today : Date) (k : Int)
    (_h_prior : k ∈ existing.map Task.id) (h_absent : k ∉ md.map Task.id) :
    k ∉ (apply_changes existing md today).map Task.id ∧
      (apply_changes existing md today).length = md.length := by
  constructor
  · intro hk
    apply h_absent
    simp only [apply_changes] at hk
    rw [renumber_map_id, sort_apply_loop,
      apply_loop_map_id (map_wf_existing existing)] at hk
    exact hk
  · simp only [apply_changes]
    rw [renumber_length, length_sort_by_display_order, apply_loop_length]

/-- Witness for C3 at a concrete input: prior records with ids 1 and 2, a
new document containing only id 1; id 2 disappears and one record is
produced. -/
theorem claim_C3_witness :
    (2 : Int) ∉ (apply_changes
        [Task.mk "A" "open" "N" 1 ⟨2023, 1, 1⟩ 1 none none none none none none
          none none none none,
         Task.mk "B" "open" "N" 2 ⟨2023, 1, 2⟩ 2 none none none none none none
          none none none none]
        [Task.mk "A" "open" "N" 1 ⟨2023, 1, 1⟩ 1 none none none none none none
          none none none none]
        ⟨2025, 6, 1⟩).map Task.id ∧
      (apply_changes
        [Task.mk "A" "open" "N" 1 ⟨2023, 1, 1⟩ 1 none none none none none none
          none none none none,
         Task.mk "B" "open" "N" 2 ⟨2023, 1, 2⟩ 2 none none none none none none
          none none none none]
        [Task.mk "A" "open" "N" 1 ⟨2023, 1, 1⟩ 1 none none none none none none
          none none none none]
        ⟨2025, 6, 1⟩).length =
        [Task.mk "A" "open" "N" 1 ⟨2023, 1, 1⟩ 1 none none none none none none
          none none none none].length :=
  claim_C3 _ _ _ 2 (by simp [Task.id]) (by simp [Task.id])

/-- C4: the merged output's display_order values are exactly 1..N for an
output (and a new document) of N records, dense and gapless, and the
records stand in the new document's order (their identifier sequence is
the new document's identifier sequence). -/
theorem claim_C4 (existing md : List Task) (today : Date) :
    (apply_changes existing md today).map Task.display_order =
        int_range_from 1 md.length ∧
      (apply_changes existing md today).map Task.id = md.map Task.id := by
  constructor
  · simp only [apply_changes]
    rw [renumber_map_display, length_sort_by_display_order, apply_loop_length]
  · simp only [apply_changes]
    rw [renumber_map_id, sort_apply_loop, apply_loop_map_id (map_wf_existing existing)]

/-- C2 (the code at the claim's failing input): the document
`- [ ] [[T]] @a#b` authors no explicit identifier (so it has no duplicate
or colliding identifiers), parses to one task with tags `[b]`, yet
re-parsing its rendered form yields tags `[b, b]`: the forest is not
identical, because the independent tag scan also matches inside the
rendered context token.  This refutes the claimed render/re-parse
idempotence. -/
theorem claim_C2 :
    pre_scan_ids (String.toList "- [ ] [[T]] @a#b") = ∅ ∧
    (parse_markdown_document_to_tasks "- [ ] [[T]] @a#b" ⟨2024, 1, 1⟩ 2025).toOption.map
        (fun f => f.map Task.tags) = some [some ["b"]] ∧
    (parse_markdown_document_to_tasks
        (((parse_markdown_document_to_tasks "- [ ] [[T]] @a#b" ⟨2024, 1, 1⟩ 2025).map
          format_tasks_to_markdown_document).toOption.getD "") ⟨2024, 1, 1⟩ 2025).toOption.map
        (fun f => f.map Task.tags) = some [some ["b", "b"]] := by
  refine ⟨by decide, by decide, by decide⟩

/-- C9: a document whose two task lines both carry `id:1` parses without
any error, and both resulting tasks carry identifier 1: parsed forests
can contain duplicate identifiers. -/
theorem claim_C9 :
    (parse_markdown_document_to_tasks "- [ ] [[a]] id:1\n- [ ] [[b]] id:1"
        ⟨2024, 1, 1⟩ 2025).toOption.map (fun f => f.map Task.id) = some [1, 1] := by
  decide

/-- Counterexample to C6 as stated: a task line whose status marker is the
space character parses to status "open", not the claimed word "none". -/
theorem claim_C6_counterexample :
    (parse_markdown_line_to_task (String.toList "- [ ] [[a]]") 0 ⟨2024, 1, 1⟩ 1
        2025).toOption.map Task.status = some "open" ∧
    ¬ (parse_markdown_line_to_task (String.toList "- [ ] [[a]]") 0 ⟨2024, 1, 1⟩ 1
        2025).toOption.map Task.status = some "none" := by
  refine ⟨by decide, by decide⟩

/-- C6 amended: for every task line whose status marker character is the
space character, the line parser produces status "open" (the
implementation's word for the no-status state; the formatter maps both
"open" and "none" back to the space marker). -/
theorem claim_C6_amended (line : List Char) (default_id : Int) (d : Date)
    (ord : Int) (y : Int) (pr : Option (List Char)) (nm att : List Char)
    (h : base_match (trim_both (trim_start_dash_space line)) = some ⟨' ', pr, nm, att⟩) :
    (parse_markdown_line_to_task line default_id d ord y).map Task.status =
      Except.ok "open" := by
  simp only [parse_markdown_line_to_task, h]
  rfl

/-- Witness for the amended C6 at a concrete line. -/
theorem claim_C6_amended_witness :
    base_match (trim_both (trim_start_dash_space (String.toList "- [ ] [[a]]"))) =
        some ⟨' ', none, ['a'], []⟩ ∧
    (parse_markdown_line_to_task (String.toList "- [ ] [[a]]") 0 ⟨2024, 1, 1⟩ 1
        2025).map Task.status = Except.ok "open" :=
  ⟨rfl, claim_C6_amended _ 0 ⟨2024, 1, 1⟩ 1 2025 none ['a'] [] rfl⟩

/-- C7: a date attribute value written in the two-part form (one- or
two-digit month, slash, one- or two-digit day) parses, when the written
month/day pair forms a valid date in the current processing year, to the
date with the current processing year and the written month and day. -/
theorem claim_C7 (m d : Nat) (s1 s2 : List Char) (y : Int) (dt : Date)
    (h1 : s1 ≠ []) (h1l : s1.length ≤ 2) (h1d : ∀ a ∈ s1, is_digit_char a)
    (h2 : s2 ≠ []) (h2l : s2.length ≤ 2) (h2d : ∀ a ∈ s2, is_digit_char a)
    (hm : digits_to_nat s1 = m) (hd : digits_to_nat s2 = d)
    (hv : date_from_ymd_opt y m d = some dt) :
    parse_date_or_empty_attr (s1 ++ '/' :: s2) y = some dt ∧
      dt.year = y ∧ dt.month = m ∧ dt.day = d := by
  have hslash : is_digit_char '/' = false := by decide
  have hne_digit : ∀ a : Char, is_digit_char a = true → decide (a ≠ '/') = true := by
    intro a ha
    simp only [decide_eq_true_eq]
    intro hc
    rw [hc] at ha
    simp [is_digit_char] at ha
  have htake : (s1 ++ '/' :: s2).takeWhile is_digit_char = s1 :=
    takeWhile_append_stop h1d hslash
  have hdrop : (s1 ++ '/' :: s2).drop s1.length = '/' :: s2 := by
    rw [← htake]
    rw [htake]
    exact List.drop_left s1 ('/' :: s2)
  have ht2 : List.takeWhile is_digit_char s2 = s2 := takeWhile_of_all h2d
  have hlen2 : ¬ 2 < s2.length := by omega
  have hdash : parse_ymd_with '-' (s1 ++ '/' :: s2) = none := by
    simp [parse_ymd_with, htake, hdrop, List.isEmpty_iff, h1]
  have hslash_parse : parse_ymd_with '/' (s1 ++ '/' :: s2) = none := by
    simp [parse_ymd_with, htake, hdrop, List.isEmpty_iff, h1, ht2, h2, hlen2,
      List.drop_length]
  have hfields : dt.year = y ∧ dt.month = m ∧ dt.day = d := by
    simp only [date_from_ymd_opt] at hv
    split at hv
    · cases hv
      exact ⟨rfl, rfl, rfl⟩
    · cases hv
  refine ⟨?_, hfields⟩
  have hnotempty : ¬ (s1 ++ '/' :: s2) = ['"', '"'] := by
    cases s1 with
    | nil => exact absurd rfl h1
    | cons a r =>
      intro hc
      have ha := h1d a (List.mem_cons_self a r)
      have : a = '"' := by
        have := congrArg (fun l => l.headI) hc
        simpa using this
      rw [this] at ha
      simp [is_digit_char] at ha
  simp only [parse_date_or_empty_attr]
  rw [if_neg hnotempty, hdash, hslash_parse]
  have hcount : (((s1 ++ '/' :: s2).filter (fun c => c = '/')).length) = 1 := by
    rw [List.filter_append]
    have hf1 : s1.filter (fun c => c = '/') = [] := by
      rw [List.filter_eq_nil_iff]
      intro a ha
      have := hne_digit a (h1d a ha)
      simp only [decide_eq_true_eq] at this
      simp [this]
    have hf2 : s2.filter (fun c => c = '/') = [] := by
      rw [List.filter_eq_nil_iff]
      intro a ha
      have := hne_digit a (h2d a ha)
      simp only [decide_eq_true_eq] at this
      simp [this]
    simp [hf1, hf2]
  rw [if_pos hcount]
  have hp0 : (s1 ++ '/' :: s2).takeWhile (fun c => c ≠ '/') = s1 := by
    apply takeWhile_append_stop
    · intro a ha
      exact hne_digit a (h1d a ha)
    · simp
  have hp1 : ((s1 ++ '/' :: s2).dropWhile (fun c => c ≠ '/')).drop 1 = s2 := by
    rw [dropWhile_append_stop (fun a ha => hne_digit a (h1d a ha)) (by simp)]
    rfl
  rw [hp0, hp1]
  have hu1 : parse_u32 s1 = some m := by
    simp only [parse_u32]
    rw [if_pos ?_]
    · rw [hm]
    · refine ⟨h1, ?_, ?_⟩
      · simp only [List.all_eq_true]
        exact h1d
      · calc digits_to_nat s1 < 10 ^ s1.length := digits_to_nat_lt (by simpa [List.all_eq_true] using h1d)
          _ ≤ 10 ^ 2 := Nat.pow_le_pow_right (by norm_num) h1l
          _ < 4294967296 := by norm_num
  have hu2 : parse_u32 s2 = some d := by
    simp only [parse_u32]
    rw [if_pos ?_]
    · rw [hd]
    · refine ⟨h2, ?_, ?_⟩
      · simp only [List.all_eq_true]
        exact h2d
      · calc digits_to_nat s2 < 10 ^ s2.length := digits_to_nat_lt (by simpa [List.all_eq_true] using h2d)
          _ ≤ 10 ^ 2 := Nat.pow_le_pow_right (by norm_num) h2l
          _ < 4294967296 := by norm_num
  rw [hu1, hu2]
  exact hv

/-- Witness for C7: the token 5/7 processed in year 2025 parses to the
date 2025-05-07. -/
theorem claim_C7_witness :
    parse_date_or_empty_attr (['5'] ++ '/' :: ['7']) 2025 = some ⟨2025, 5, 7⟩ ∧
      (⟨2025, 5, 7⟩ : Date).year = 2025 ∧ (⟨2025, 5, 7⟩ : Date).month = 5 ∧
      (⟨2025, 5, 7⟩ : Date).day = 7 :=
  claim_C7 5 7 ['5'] ['7'] 2025 ⟨2025, 5, 7⟩ (by decide) (by decide)
    (by decide) (by decide) (by decide) (by decide) (by decide) (by decide)
    (by decide)

/-- C8: document parsing fails exactly when some task line fails the base
shape (status marker, optional priority, name); the returned error is the
base-shape message carrying the offending (trimmed) line text; a document
all of whose task lines match the base shape never fails, whatever the
individual attribute values contain. -/
theorem claim_C8 (doc : String) (dc : Date) (y : Int) :
    ((parse_markdown_document_to_tasks doc dc y).isOk = true ↔
        ∀ l ∈ task_lines doc.toList, line_shape_ok l = true) ∧
      (∀ e, parse_markdown_document_to_tasks doc dc y = .error e →
        ∃ l ∈ task_lines doc.toList, line_shape_ok l = false ∧
          e = line_error_msg (trim_both (trim_start_dash_space (strip_indent_and_marker l)))) := by
  have h := flat_go_ok (task_lines doc.toList) dc y 1 (pre_scan_ids doc.toList) 1
  constructor
  · rw [show parse_markdown_document_to_tasks doc dc y =
        Except.map build_forest (parse_flat_items doc.toList dc y) from rfl]
    rw [except_map_isOk]
    exact h.1
  · intro e he
    rw [show parse_markdown_document_to_tasks doc dc y =
        Except.map build_forest (parse_flat_items doc.toList dc y) from rfl] at he
    rw [except_map_eq_error] at he
    exact h.2 e he

/-- Witness for C8: a well-shaped one-line document parses, and the
document `- [x]` (task line with no name) fails with the base-shape
message for its trimmed line text. -/
theorem claim_C8_witness :
    (parse_markdown_document_to_tasks "- [ ] [[a]]" ⟨2024, 1, 1⟩ 2025).isOk = true ∧
      ∃ l ∈ task_lines (String.toList "- [x]"), line_shape_ok l = false ∧
        line_error_msg (trim_both (trim_start_dash_space
            (strip_indent_and_marker (String.toList "- [x]")))) =
          line_error_msg (trim_both (trim_start_dash_space (strip_indent_and_marker l))) :=
  ⟨(claim_C8 "- [ ] [[a]]" ⟨2024, 1, 1⟩ 2025).1.mpr (by decide),
   (claim_C8 "- [x]" ⟨2024, 1, 1⟩ 2025).2 _ rfl⟩

/-- Counterexample to C5 as stated, in both its parts.  First, the task
line `- [ ] [[a]] id:0` carries an explicit id: attribute (with value 0),
yet the parsed forest's only task carries identifier 1, not 0 — the
parser treats id 0 as "unassigned" and auto-allocates.  Second, in the
document `- [ ] [[a]]` / tab-indented `- [ ] [[b]] id:1`, the second line
carries the explicit identifier 1 (as the line parser extracts it), but
the pre-scan extracts nothing from it — after a tab,
`strip_indent_and_marker` leaves the `- ` marker in place and the
pre-scan's base regex fails on it, while the line parser's extra
`trim_start_matches("- ")` strips it — so the collision set is empty,
the first line auto-allocates identifier 1, and the parsed forest
carries the duplicate identifiers [1, 1]: an automatically allocated
identifier equal to an explicit identifier on a later line. -/
theorem claim_C5_counterexample :
    (pre_scan_id (String.toList "- [ ] [[a]] id:0") = some 0 ∧
      (parse_markdown_document_to_tasks "- [ ] [[a]] id:0" ⟨2024, 1, 1⟩
          2025).toOption.map (fun f => f.map Task.id) = some [1]) ∧
    (line_explicit_id (String.toList "- [ ] [[a]]") = 0 ∧
      line_explicit_id (String.toList "\t- [ ] [[b]] id:1") = 1 ∧
      pre_scan_ids (String.toList "- [ ] [[a]]\n\t- [ ] [[b]] id:1") = ∅ ∧
      (parse_markdown_document_to_tasks "- [ ] [[a]]\n\t- [ ] [[b]] id:1"
          ⟨2024, 1, 1⟩ 2025).toOption.map (fun f => f.map Task.id) =
        some [1, 1]) := by
  refine ⟨⟨by decide, by decide⟩, by decide, by decide, by decide, by decide⟩

/-- C5 amended: whenever a document parses, each task line with an
explicit positive id: attribute keeps exactly that identifier; each task
line without one (no id: attribute, value 0, or overflow) receives an
automatically allocated identifier that is positive, distinct from every
identifier in the pre-scan collision set `pre_scan_ids` — the explicit
identifiers the pre-scan extracts, collected over the whole document
before any allocation, so covering later lines as well — and distinct
from every other automatically allocated identifier; and the assembled
forest holds exactly the identifiers of the flat pass (as a multiset).
The pre-scan set can miss an explicit identifier on a task line whose
content still starts with the `- ` marker after `strip_indent_and_marker`
(a tab-indented line), so an auto-allocated identifier can collide with
such an identifier: see the second part of the counterexample. -/
theorem claim_C5_amended (doc : String) (dc : Date) (y : Int)
    (items : List (Task × Nat))
    (h : parse_flat_items doc.toList dc y = .ok items) :
    parse_markdown_document_to_tasks doc dc y = .ok (build_forest items) ∧
      (forest_ids (build_forest items) : Multiset Int) =
        ↑(items.map (fun it => (it : Task × Nat).1.id)) ∧
      List.Forall₂ (fun l it =>
          (1 ≤ line_explicit_id l → (it : Task × Nat).1.id = line_explicit_id l) ∧
          (line_explicit_id l = 0 →
            it.1.id ∉ pre_scan_ids doc.toList ∧ 1 ≤ it.1.id))
        (task_lines doc.toList) items ∧
      ((task_lines doc.toList).zip items).Pairwise (fun a b =>
        line_explicit_id a.1 = 0 → line_explicit_id b.1 = 0 →
          (a.2 : Task × Nat).1.id ≠ (b.2 : Task × Nat).1.id) := by
  obtain ⟨hf2, hpw⟩ := flat_go_ids h
  refine ⟨?_, ?_, hf2, hpw⟩
  · rw [show parse_markdown_document_to_tasks doc dc y =
        Except.map build_forest (parse_flat_items doc.toList dc y) from rfl, h]
    rfl
  · rw [build_forest_ids]
    exact items_ids_of_leaves (flat_go_subtasks h)

/-- Witness for the amended C5: the document whose first line has no id
and whose second line explicitly carries id 1; the auto-allocated
identifier is 2. -/
theorem claim_C5_amended_witness :
    parse_markdown_document_to_tasks "- [ ] [[a]]\n- [ ] [[b]] id:1" ⟨2024, 1, 1⟩ 2025 =
        .ok (build_forest ((parse_flat_items
          (String.toList "- [ ] [[a]]\n- [ ] [[b]] id:1") ⟨2024, 1, 1⟩
          2025).toOption.getD [])) ∧
      (forest_ids (build_forest ((parse_flat_items
          (String.toList "- [ ] [[a]]\n- [ ] [[b]] id:1") ⟨2024, 1, 1⟩
          2025).toOption.getD [])) : Multiset Int) =
        ↑(((parse_flat_items (String.toList "- [ ] [[a]]\n- [ ] [[b]] id:1")
          ⟨2024, 1, 1⟩ 2025).toOption.getD []).map
            (fun it => (it : Task × Nat).1.id)) ∧
      List.Forall₂ (fun l it =>
          (1 ≤ line_explicit_id l → (it : Task × Nat).1.id = line_explicit_id l) ∧
          (line_explicit_id l = 0 →
            it.1.id ∉ pre_scan_ids (String.toList "- [ ] [[a]]\n- [ ] [[b]] id:1") ∧
              1 ≤ it.1.id))
        (task_lines (String.toList "- [ ] [[a]]\n- [ ] [[b]] id:1"))
        ((parse_flat_items (String.toList "- [ ] [[a]]\n- [ ] [[b]] id:1")
          ⟨2024, 1, 1⟩ 2025).toOption.getD []) ∧
      ((task_lines (String.toList "- [ ] [[a]]\n- [ ] [[b]] id:1")).zip
          ((parse_flat_items (String.toList "- [ ] [[a]]\n- [ ] [[b]] id:1")
            ⟨2024, 1, 1⟩ 2025).toOption.getD [])).Pairwise (fun a b =>
        line_explicit_id a.1 = 0 → line_explicit_id b.1 = 0 →
          (a.2 : Task × Nat).1.id ≠ (b.2 : Task × Nat).1.id) :=
  claim_C5_amended "- [ ] [[a]]\n- [ ] [[b]] id:1" ⟨2024, 1, 1⟩ 2025 _ rfl

/-- C10: the merge engine touches only top-level records; the nested
subtask trees of the merged output are exactly, field for field, the
nested subtask trees of the input forest (position by position), so
nested tasks keep their parse-time display_order and updated values. -/
theorem claim_C10 (existing md : List Task) (today : Date) :
    (apply_changes existing md today).map Task.subtasks = md.map Task.subtasks := by
  simp only [apply_changes]
  rw [renumber_map_subtasks, sort_apply_loop, apply_loop_map_subtasks]

end Og
